import Mathlib

/-!
Verification development for the data import/export validation and merge
pipeline of the daylo activity tracker (`src/lib/dataExport.ts`).

The embedding below translates the TypeScript module into Lean:
JavaScript strings become `String` (a list of characters), untrusted
parsed-JSON values become the `Json` inductive type, and the handful of
platform primitives the module calls (`String.prototype.replace` with a
global regex, `trim`, `new Date(y, m, d)` normalization, the ECMAScript
date-time string format accepted by `new Date(string)`) are modelled
explicitly as executable functions.  Code paths that can throw a runtime
`TypeError` (calling a string method on `undefined`) are modelled with
`Except JsErr`.
-/

/-- Characters removed by `String.prototype.trim` (the ECMAScript
WhiteSpace and LineTerminator sets). -/
def jsWhitespace (c : Char) : Bool :=
  c == ' ' || c == '\t' || c == '\n' || c == '\r' ||
  c == '\x0b' || c == '\x0c' || c == '\u00a0' || c == '\u1680' ||
  ('\u2000' <= c && c <= '\u200a') || c == '\u2028' || c == '\u2029' ||
  c == '\u202f' || c == '\u205f' || c == '\u3000' || c == '\ufeff'

/-- Drop leading JS whitespace. -/
def trimStartL (l : List Char) : List Char := l.dropWhile jsWhitespace

/-- Drop trailing JS whitespace. -/
def trimEndL (l : List Char) : List Char := (l.reverse.dropWhile jsWhitespace).reverse

/-- `String.prototype.trim` on the underlying character list. -/
def jsTrimL (l : List Char) : List Char := trimEndL (trimStartL l)

/-- `String.prototype.trim`. -/
def jsTrim (s : String) : String := String.mk (jsTrimL s.data)

/-- Boolean test that `p` is an initial segment of `l`. -/
def headSegB : List Char → List Char → Bool
  | [], _ => true
  | _ :: _, [] => false
  | x :: p, y :: l => x == y && headSegB p l

/-- `p` is an initial segment of `l`. -/
def HeadSeg (p l : List Char) : Prop := ∃ t, l = p ++ t

/-- Boolean test that `p` occurs as a contiguous segment of `l`. -/
def subSegB (p : List Char) : List Char → Bool
  | [] => headSegB p []
  | y :: l => headSegB p (y :: l) || subSegB p l

/-- `p` occurs as a contiguous segment of `l`. -/
def SubSeg (p l : List Char) : Prop := ∃ s t, l = s ++ p ++ t

/-- `needle` occurs in `s` (the model of `String.prototype.includes`). -/
def strIncludes (s needle : String) : Bool := subSegB needle.data s.data

/-- The model of `String.prototype.startsWith`. -/
def strStartsWith (s p : String) : Bool := headSegB p.data s.data

/-- Fuel-driven worker for `rep`; the fuel is an upper bound on the input
length, so the recursion is structural and kernel-reducible. -/
def repGo (p r : List Char) : Nat → List Char → List Char
  | _, [] => []
  | 0, l => l
  | f + 1, a :: l =>
    if headSegB p (a :: l) && !p.isEmpty then
      r ++ repGo p r f (List.drop (p.length - 1) l)
    else
      a :: repGo p r f l

/-- Global left-to-right, non-overlapping replacement of the literal
pattern `p` by `r`: the model of `String.prototype.replace` with a global
regex whose pattern is the literal string `p`. -/
def rep (p r l : List Char) : List Char := repGo p r l.length l

/-- Fuel-driven worker for `removeTagsL`. -/
def rtGo : Nat → List Char → List Char
  | _, [] => []
  | 0, l => l
  | f + 1, a :: l =>
    if a == '<' then
      if l.contains '>' then rtGo f ((l.dropWhile (fun c => !(c == '>'))).tail)
      else a :: rtGo f l
    else a :: rtGo f l

/-- The model of `.replace(/<[^>]*>/g, '')`: each `<` that is followed by
some later `>` starts a match reaching to the first such `>`; a `<` with
no later `>` matches nothing. -/
def removeTagsL (l : List Char) : List Char := rtGo l.length l

/-- The characters of the entity `&lt;`. -/
def entLt : List Char := ['&', 'l', 't', ';']

/-- The characters of the entity `&gt;`. -/
def entGt : List Char := ['&', 'g', 't', ';']

/-- The characters of the entity `&amp;`. -/
def entAmp : List Char := ['&', 'a', 'm', 'p', ';']

/-- The characters of the entity `&quot;`. -/
def entQuot : List Char := ['&', 'q', 'u', 'o', 't', ';']

/-- The characters of the entity `&#x27;`. -/
def entApos : List Char := ['&', '#', 'x', '2', '7', ';']

/-- The chained replacements of `sanitizeString`, on character lists, in
the exact source order: strip tags, decode the five entities, re-encode
literal angle brackets, trim. -/
def sanitizeL (l : List Char) : List Char :=
  jsTrimL
    (rep ['>'] entGt
      (rep ['<'] entLt
        (rep entApos ['\'']
          (rep entQuot ['"']
            (rep entAmp ['&']
              (rep entGt ['>']
                (rep entLt ['<']
                  (removeTagsL l))))))))

/-- `sanitizeString` from the source: remove HTML tags, decode the common
entities, re-encode the angle brackets and trim. -/
def sanitizeString (s : String) : String := String.mk (sanitizeL s.data)

/-- Boolean test used by `containsHTML`: some `<` is followed by a later
`>` (the model of `/<[^>]*>/.test`). -/
def hasTagB : List Char → Bool
  | [] => false
  | c :: cs => (c == '<' && cs.contains '>') || hasTagB cs

/-- `containsHTML` from the source. -/
def containsHTML (s : String) : Bool := hasTagB s.data

/-- `escapeCSV` from the source: quote a field containing a comma, a
double quote or a newline, doubling internal double quotes. -/
def escapeCSV (value : String) : String :=
  if value.data.contains ',' || value.data.contains '"' || value.data.contains '\n' then
    String.mk (('"' :: rep ['"'] ['"', '"'] value.data) ++ ['"'])
  else value

/-- The model of `String.prototype.slice(0, n)`. -/
def strTake (n : Nat) (s : String) : String := String.mk (s.data.take n)

/-- A parsed-JSON value, the result type of a successful `JSON.parse`.
Objects carry their fields in insertion order; `JSON.parse` output has
distinct keys (later duplicates overwrite earlier ones). -/
inductive Json where
  | null : Json
  | bool (b : Bool) : Json
  | num (n : Int) : Json
  | str (s : String) : Json
  | arr (elems : List Json) : Json
  | obj (fields : List (String × Json)) : Json

/-- Lookup of a named property in a JSON object field list. -/
def lookupField : List (String × Json) → String → Option Json
  | [], _ => none
  | (k, v) :: rest, key => if k == key then some v else lookupField rest key

/-- Property access `j.key` on a parsed value; `none` models the
JavaScript value `undefined` (absent property, or access on a non-object;
array index/length properties are never accessed by the module). -/
def jGet (j : Json) (key : String) : Option Json :=
  match j with
  | .obj fields => lookupField fields key
  | _ => none

/-- The guard `!data || typeof data !== 'object'` from the source is
false exactly for (truthy) objects and arrays. -/
def isObjectLike (j : Json) : Bool :=
  match j with
  | .obj _ => true
  | .arr _ => true
  | _ => false

/-- The `VALIDATION_LIMITS` constants object from the source. -/
structure ValidationLimits where
  MAX_ACTIVITIES : Nat
  MAX_LOGS : Nat
  MAX_NAME_LENGTH : Nat
  MAX_COLOR_LENGTH : Nat
  MAX_ID_LENGTH : Nat
  MAX_NOTES_LENGTH : Nat

/-- `VALIDATION_LIMITS` from the source. -/
def VALIDATION_LIMITS : ValidationLimits :=
  { MAX_ACTIVITIES := 10000
    MAX_LOGS := 100000
    MAX_NAME_LENGTH := 100
    MAX_COLOR_LENGTH := 20
    MAX_ID_LENGTH := 100
    MAX_NOTES_LENGTH := 1000 }

/-- `ValidationError` from the source. -/
structure ValidationError where
  field : String
  message : String
  index : Option Nat
deriving DecidableEq

/-- The `Activity` entity.  `updatedAt` is `Option String`: the validator
and sanitizer treat the property as optional, so an imported activity can
lack it at runtime even though the TypeScript interface declares it. -/
structure Activity where
  id : String
  name : String
  color : String
  createdAt : String
  updatedAt : Option String
deriving DecidableEq

/-- The `ActivityLog` entity; `notes` is optional. -/
structure ActivityLog where
  id : String
  activityId : String
  date : String
  completed : Bool
  notes : Option String
  createdAt : String
deriving DecidableEq

/-- An activities/logs pair: the shape of `sanitizedData` and of the
merge result. -/
structure DataSet where
  activities : List Activity
  logs : List ActivityLog
deriving DecidableEq

/-- `ValidationResult` from the source. -/
structure ValidationResult where
  valid : Bool
  errors : List ValidationError
  sanitizedData : Option DataSet
deriving DecidableEq

/-- A JavaScript runtime fault (a `TypeError` from calling a string
method on `undefined` or on a non-string). -/
inductive JsErr where
  | typeError : JsErr
deriving DecidableEq

/-- The regex `^[a-zA-Z0-9_-]+$` character class. -/
def isIdChar (c : Char) : Bool :=
  ('a' ≤ c && c ≤ 'z') || ('A' ≤ c && c ≤ 'Z') || ('0' ≤ c && c ≤ '9') ||
  c == '_' || c == '-'

/-- The test `/^[a-zA-Z0-9_-]+$/.test(id)` from `validateId`. -/
def validIdPatternB (s : String) : Bool := !s.data.isEmpty && s.data.all isIdChar

/-- The regex `[A-Fa-f0-9]` character class. -/
def isHexDigitB (c : Char) : Bool :=
  ('0' ≤ c && c ≤ '9') || ('a' ≤ c && c ≤ 'f') || ('A' ≤ c && c ≤ 'F')

/-- `isValidHexColor` from the source: `/^#([A-Fa-f0-9]{6}|[A-Fa-f0-9]{3})$/`. -/
def isValidHexColor (color : String) : Bool :=
  match color.data with
  | '#' :: rest => (rest.length == 6 || rest.length == 3) && rest.all isHexDigitB
  | _ => false

/-- Proleptic-Gregorian leap-year rule used by the JavaScript `Date`. -/
def isLeap (y : Int) : Bool := (y % 4 == 0 && !(y % 100 == 0)) || y % 400 == 0

/-- Days in the 0-based month `m0` of year `y`. -/
def daysInMonth (y m0 : Int) : Int :=
  if m0 == 1 then (if isLeap y then 29 else 28)
  else if m0 == 3 || m0 == 5 || m0 == 8 || m0 == 10 then 30
  else 31

/-- Backward day normalization of `new Date(y, m, d)`: while the day is
below 1, borrow the previous month.  The fuel bounds the number of
borrows; 400 is far more than any input the module can produce needs. -/
def rollB : Nat → Int → Int → Int → Int × Int × Int
  | 0, y, m, d => (y, m, d)
  | f + 1, y, m, d =>
    if d < 1 then
      if m == 0 then rollB f (y - 1) 11 (d + daysInMonth (y - 1) 11)
      else rollB f y (m - 1) (d + daysInMonth y (m - 1))
    else (y, m, d)

/-- Forward day normalization of `new Date(y, m, d)`: while the day
exceeds the month length, advance to the next month. -/
def rollF : Nat → Int → Int → Int → Int × Int × Int
  | 0, y, m, d => (y, m, d)
  | f + 1, y, m, d =>
    if d > daysInMonth y m then
      if m == 11 then rollF f (y + 1) 0 (d - daysInMonth y m)
      else rollF f y (m + 1) (d - daysInMonth y m)
    else (y, m, d)

/-- The year adjustment of `new Date(y, m, d)` (proleptic Gregorian): a
year argument in 0..99 is shifted to 1900..1999; the month is then
folded into the year with floor division and the day-of-month is
normalized by borrowing or carrying whole months. -/
def yearAdj (y : Int) : Int := if 0 ≤ y ∧ y ≤ 99 then y + 1900 else y

/-- Forward day normalization applied to a (year, month, day) triple. -/
def dayNormF (t : Int × Int × Int) : Int × Int × Int := rollF 400 t.1 t.2.1 t.2.2

/-- The civil date denoted by `new Date(y, m0, d)` as the triple
`(getFullYear, getMonth, getDate)`. -/
def jsMakeDate (y m0 d : Int) : Int × Int × Int :=
  dayNormF (rollB 400 (yearAdj y + m0 / 12) (m0 % 12) d)

/-- Numeric value of a decimal digit character. -/
def digitVal (c : Char) : Int := Int.ofNat (c.toNat - '0'.toNat)

/-- The regex gate `^\d{4}-\d{2}-\d{2}$` of `isValidDateFormat`,
combined with `date.split('-').map(Number)`: on a match, the year, month
and day components as integers. -/
def parseYMD : List Char → Option (Int × Int × Int)
  | [y1, y2, y3, y4, '-', m1, m2, '-', d1, d2] =>
    if [y1, y2, y3, y4, m1, m2, d1, d2].all Char.isDigit then
      some (digitVal y1 * 1000 + digitVal y2 * 100 + digitVal y3 * 10 + digitVal y4,
            digitVal m1 * 10 + digitVal m2,
            digitVal d1 * 10 + digitVal d2)
    else none
  | _ => none

/-- `isValidDateFormat` from the source: the strict `YYYY-MM-DD` regex,
then the `new Date(year, month - 1, day)` round-trip check against
`getFullYear`/`getMonth`/`getDate`. -/
def isValidDateFormat (date : String) : Bool :=
  match parseYMD date.data with
  | none => false
  | some (y, m, d) =>
    let r := jsMakeDate y (m - 1) d
    r.1 == y && r.2.1 == m - 1 && r.2.2 == d

/-- The claim-side reading of a string denoting a real calendar date:
month 1-12 and a day valid for the month and (leap) year, exactly as the
specification words it. -/
def isRealCalendarDate (y m d : Int) : Bool :=
  1 ≤ m && m ≤ 12 && 1 ≤ d && d ≤ daysInMonth y (m - 1)

/-- Tail of an ISO time after the seconds: nothing, a `Z` suffix, or
`.sss` milliseconds optionally followed by `Z`. -/
def isoMsOK : List Char → Bool
  | [] => true
  | ['Z'] => true
  | '.' :: a :: b :: c :: rest =>
    [a, b, c].all Char.isDigit && (rest.isEmpty || rest == ['Z'])
  | _ => false

/-- Tail of an ISO time after the minutes: nothing, a `Z` suffix, or
`:ss` seconds followed by `isoMsOK`. -/
def isoSecOK : List Char → Bool
  | [] => true
  | ['Z'] => true
  | ':' :: s1 :: s2 :: rest =>
    [s1, s2].all Char.isDigit && digitVal s1 * 10 + digitVal s2 ≤ 59 && isoMsOK rest
  | _ => false

/-- Optional time part of an ISO date-time: empty, or `Thh:mm` followed
by `isoSecOK`. -/
def isoTimeOK : List Char → Bool
  | [] => true
  | 'T' :: h1 :: h2 :: ':' :: n1 :: n2 :: rest =>
    [h1, h2, n1, n2].all Char.isDigit &&
    digitVal h1 * 10 + digitVal h2 ≤ 23 && digitVal n1 * 10 + digitVal n2 ≤ 59 &&
    isoSecOK rest
  | _ => false

/-- Model of `!isNaN(new Date(s).getTime())` (`isValidISODate` in the
source): acceptance of the ECMAScript Date Time String Format
`YYYY[-MM[-DD[THH:mm[:ss[.sss]][Z]]]]` with in-range components.
Engine-specific fallback parsing of other layouts is not modelled; no
claim in this development depends on strings outside this profile. -/
def isValidISODate (dateString : String) : Bool :=
  match dateString.data with
  | [y1, y2, y3, y4] => [y1, y2, y3, y4].all Char.isDigit
  | [y1, y2, y3, y4, '-', m1, m2] =>
    [y1, y2, y3, y4, m1, m2].all Char.isDigit &&
    1 ≤ digitVal m1 * 10 + digitVal m2 && digitVal m1 * 10 + digitVal m2 ≤ 12
  | y1 :: y2 :: y3 :: y4 :: '-' :: m1 :: m2 :: '-' :: d1 :: d2 :: rest =>
    [y1, y2, y3, y4, m1, m2, d1, d2].all Char.isDigit &&
    (let y := digitVal y1 * 1000 + digitVal y2 * 100 + digitVal y3 * 10 + digitVal y4
     let m := digitVal m1 * 10 + digitVal m2
     let d := digitVal d1 * 10 + digitVal d2
     1 ≤ m && m ≤ 12 && 1 ≤ d && d ≤ daysInMonth y (m - 1)) &&
    isoTimeOK rest
  | _ => false

/-- `validateId` from the source: four independent checks (non-empty,
length cap, no HTML-tag-like substring, allowed character set), each
contributing its own error. -/
def validateId (id : String) (field : String) (index : Option Nat) : List ValidationError :=
  (if id.length == 0 then [⟨field, "ID cannot be empty.", index⟩] else []) ++
  (if id.length > VALIDATION_LIMITS.MAX_ID_LENGTH then
    [⟨field, "ID exceeds maximum length of " ++ toString VALIDATION_LIMITS.MAX_ID_LENGTH ++
      " characters.", index⟩]
   else []) ++
  (if containsHTML id then
    [⟨field, "ID contains invalid characters (HTML tags are not allowed).", index⟩]
   else []) ++
  (if !validIdPatternB id then
    [⟨field, "ID contains invalid characters. Only alphanumeric characters, hyphens, and underscores are allowed.", index⟩]
   else [])

/-- `validateActivity` from the source: the element must be a (truthy)
object, then each field is checked independently, errors accumulating in
field order. -/
def validateActivity (j : Json) (index : Nat) : List ValidationError :=
  let pfx := "activities[" ++ toString index ++ "]"
  if !(isObjectLike j) then
    [⟨pfx, "Activity at index " ++ toString index ++ " must be a valid object.", some index⟩]
  else
    (match jGet j "id" with
     | some (Json.str s) => validateId s (pfx ++ ".id") (some index)
     | _ => [⟨pfx ++ ".id", "Activity at index " ++ toString index ++
         " must have a valid string ID.", some index⟩]) ++
    (match jGet j "name" with
     | some (Json.str s) =>
       (if s.length == 0 then
         [⟨pfx ++ ".name", "Activity at index " ++ toString index ++
           " name cannot be empty.", some index⟩]
        else []) ++
       (if s.length > VALIDATION_LIMITS.MAX_NAME_LENGTH then
         [⟨pfx ++ ".name", "Activity at index " ++ toString index ++
           " name exceeds maximum length of " ++ toString VALIDATION_LIMITS.MAX_NAME_LENGTH ++
           " characters.", some index⟩]
        else [])
     | _ => [⟨pfx ++ ".name", "Activity at index " ++ toString index ++
         " must have a valid string name.", some index⟩]) ++
    (match jGet j "color" with
     | some (Json.str s) =>
       (if !isValidHexColor s then
         [⟨pfx ++ ".color", "Activity at index " ++ toString index ++
           " has invalid color format. Must be a hex color (#RGB or #RRGGBB).", some index⟩]
        else []) ++
       (if s.length > VALIDATION_LIMITS.MAX_COLOR_LENGTH then
         [⟨pfx ++ ".color", "Activity at index " ++ toString index ++
           " color exceeds maximum length of " ++ toString VALIDATION_LIMITS.MAX_COLOR_LENGTH ++
           " characters.", some index⟩]
        else [])
     | _ => [⟨pfx ++ ".color", "Activity at index " ++ toString index ++
         " must have a valid string color.", some index⟩]) ++
    (match jGet j "createdAt" with
     | some (Json.str s) =>
       if !isValidISODate s then
         [⟨pfx ++ ".createdAt", "Activity at index " ++ toString index ++
           " has invalid createdAt format. Must be a valid ISO date string.", some index⟩]
       else []
     | _ => [⟨pfx ++ ".createdAt", "Activity at index " ++ toString index ++
         " must have a valid createdAt timestamp.", some index⟩]) ++
    (match jGet j "updatedAt" with
     | none => []
     | some (Json.str s) =>
       if !isValidISODate s then
         [⟨pfx ++ ".updatedAt", "Activity at index " ++ toString index ++
           " has invalid updatedAt format. Must be a valid ISO date string.", some index⟩]
       else []
     | some _ => [⟨pfx ++ ".updatedAt", "Activity at index " ++ toString index ++
         " updatedAt must be a valid string if provided.", some index⟩])

/-- `validateActivityLog` from the source. -/
def validateActivityLog (j : Json) (index : Nat) : List ValidationError :=
  let pfx := "logs[" ++ toString index ++ "]"
  if !(isObjectLike j) then
    [⟨pfx, "Log at index " ++ toString index ++ " must be a valid object.", some index⟩]
  else
    (match jGet j "id" with
     | some (Json.str s) => validateId s (pfx ++ ".id") (some index)
     | _ => [⟨pfx ++ ".id", "Log at index " ++ toString index ++
         " must have a valid string ID.", some index⟩]) ++
    (match jGet j "activityId" with
     | some (Json.str s) => validateId s (pfx ++ ".activityId") (some index)
     | _ => [⟨pfx ++ ".activityId", "Log at index " ++ toString index ++
         " must have a valid string activityId.", some index⟩]) ++
    (match jGet j "date" with
     | some (Json.str s) =>
       if !isValidDateFormat s then
         [⟨pfx ++ ".date", "Log at index " ++ toString index ++
           " has invalid date format. Must be YYYY-MM-DD.", some index⟩]
       else []
     | _ => [⟨pfx ++ ".date", "Log at index " ++ toString index ++
         " must have a valid string date.", some index⟩]) ++
    (match jGet j "completed" with
     | some (Json.bool _) => []
     | _ => [⟨pfx ++ ".completed", "Log at index " ++ toString index ++
         " must have a boolean completed field.", some index⟩]) ++
    (match jGet j "notes" with
     | none => []
     | some Json.null => []
     | some (Json.str s) =>
       if s.length > VALIDATION_LIMITS.MAX_NOTES_LENGTH then
         [⟨pfx ++ ".notes", "Log at index " ++ toString index ++
           " notes exceeds maximum length of " ++ toString VALIDATION_LIMITS.MAX_NOTES_LENGTH ++
           " characters.", some index⟩]
       else []
     | some _ => [⟨pfx ++ ".notes", "Log at index " ++ toString index ++
         " notes must be a string if provided.", some index⟩]) ++
    (match jGet j "createdAt" with
     | some (Json.str s) =>
       if !isValidISODate s then
         [⟨pfx ++ ".createdAt", "Log at index " ++ toString index ++
           " has invalid createdAt format. Must be a valid ISO date string.", some index⟩]
       else []
     | _ => [⟨pfx ++ ".createdAt", "Log at index " ++ toString index ++
         " must have a valid createdAt timestamp.", some index⟩])

/-- The `for` loop over `obj.activities`, collecting element errors from
index `i` on. -/
def validateActivitiesFrom : List Json → Nat → List ValidationError
  | [], _ => []
  | a :: rest, i => validateActivity a i ++ validateActivitiesFrom rest (i + 1)

/-- The `for` loop over `obj.logs`, collecting element errors from index
`i` on. -/
def validateLogsFrom : List Json → Nat → List ValidationError
  | [], _ => []
  | a :: rest, i => validateActivityLog a i ++ validateLogsFrom rest (i + 1)

/-- The activities count-error message. -/
def tooManyActivitiesMessage (n : Nat) : String :=
  "Too many activities. Maximum allowed is " ++ toString VALIDATION_LIMITS.MAX_ACTIVITIES ++
  ", but found " ++ toString n ++ "."

/-- The logs count-error message. -/
def tooManyLogsMessage (n : Nat) : String :=
  "Too many log entries. Maximum allowed is " ++ toString VALIDATION_LIMITS.MAX_LOGS ++
  ", but found " ++ toString n ++ "."

/-- `validateImportDataWithErrors` from the source: a non-object input
yields a single `data` error; each of the two arrays independently
yields either a missing/invalid-array error, a single count error (with
per-element validation skipped), or the accumulated element errors. -/
def validateImportDataWithErrors (data : Json) : ValidationResult :=
  if !(isObjectLike data) then
    ⟨false, [⟨"data", "Import data must be a valid object.", none⟩], none⟩
  else
    let activityErrors :=
      match jGet data "activities" with
      | some (Json.arr acts) =>
        if acts.length > VALIDATION_LIMITS.MAX_ACTIVITIES then
          [⟨"activities", tooManyActivitiesMessage acts.length, none⟩]
        else validateActivitiesFrom acts 0
      | _ => [⟨"activities", "Missing or invalid \"activities\" array.", none⟩]
    let logErrors :=
      match jGet data "logs" with
      | some (Json.arr logs) =>
        if logs.length > VALIDATION_LIMITS.MAX_LOGS then
          [⟨"logs", tooManyLogsMessage logs.length, none⟩]
        else validateLogsFrom logs 0
      | _ => [⟨"logs", "Missing or invalid \"logs\" array.", none⟩]
    let errors := activityErrors ++ logErrors
    ⟨errors.isEmpty, errors, none⟩

/-- `validateImportData` from the source: the deprecated boolean wrapper
over the detailed validator. -/
def validateImportData (data : Json) : Bool :=
  (validateImportDataWithErrors data).valid

/-- `sanitizeActivity` from the source, over typed activities: trim the
id and the color, sanitize and truncate the name, pass the timestamps
through. -/
def sanitizeActivity (activity : Activity) : Activity :=
  { activity with
    id := jsTrim activity.id
    name := strTake VALIDATION_LIMITS.MAX_NAME_LENGTH (sanitizeString activity.name)
    color := strTake VALIDATION_LIMITS.MAX_COLOR_LENGTH (jsTrim activity.color) }

/-- `sanitizeActivityLog` from the source, over typed logs.  The source
computes `log.notes ? sanitizeString(log.notes).slice(0, 1000) :
undefined`; absent notes and the (falsy) empty string both become
`undefined`. -/
def sanitizeActivityLog (log : ActivityLog) : ActivityLog :=
  { log with
    id := jsTrim log.id
    activityId := jsTrim log.activityId
    date := jsTrim log.date
    notes :=
      match log.notes with
      | some s =>
        if s == "" then none
        else some (strTake VALIDATION_LIMITS.MAX_NOTES_LENGTH (sanitizeString s))
      | none => none }

/-- The `data as ExportData` cast of one activity element, as a typed
read.  A mis-typed required field yields `none` (the original code would
go on to throw a `TypeError` in `sanitizeActivity`); any call site is
gated by the validator, which rejects every such shape first.  A present
but non-string `updatedAt` is likewise validator-rejected, so collapsing
it to `none` here is indistinguishable at every call site; extra
properties carried along by the object spread are dropped, and no claim
observes them. -/
def readActivity (j : Json) : Option Activity :=
  match jGet j "id", jGet j "name", jGet j "color", jGet j "createdAt" with
  | some (Json.str id), some (Json.str name), some (Json.str color), some (Json.str createdAt) =>
    some ⟨id, name, color, createdAt,
      match jGet j "updatedAt" with
      | some (Json.str u) => some u
      | _ => none⟩
  | _, _, _, _ => none

/-- The `data as ExportData` cast of one log element, as a typed read;
a JSON `null` notes value collapses to `none`, exactly as the falsy
check in `sanitizeActivityLog` sends `null` to `undefined`. -/
def readActivityLog (j : Json) : Option ActivityLog :=
  match jGet j "id", jGet j "activityId", jGet j "date", jGet j "completed",
        jGet j "createdAt" with
  | some (Json.str id), some (Json.str aid), some (Json.str date), some (Json.bool c),
    some (Json.str createdAt) =>
    (match jGet j "notes" with
     | none => some ⟨id, aid, date, c, none, createdAt⟩
     | some Json.null => some ⟨id, aid, date, c, none, createdAt⟩
     | some (Json.str s) => some ⟨id, aid, date, c, some s, createdAt⟩
     | some _ => none)
  | _, _, _, _, _ => none

/-- Read every element of a JSON array through `f`, failing if any
element fails. -/
def readAll (f : Json → Option α) : List Json → Option (List α)
  | [] => some []
  | j :: rest =>
    match f j, readAll f rest with
    | some a, some l => some (a :: l)
    | _, _ => none

/-- The single error returned when `JSON.parse` throws. -/
def fileParseError : ValidationError :=
  ⟨"file", "Invalid JSON format. The file could not be parsed.", none⟩

/-- `parseImportFileWithValidation` from the source.  The argument is
the outcome of `JSON.parse` on the raw text: `none` when the parse threw
a syntax error, `some data` with the parsed value otherwise (modelling
the platform JSON parser itself is out of scope).  The result is
`Except.error` exactly when the original code would escape with a
runtime `TypeError` instead of returning a `ValidationResult`. -/
def parseImportFileWithValidation (parsed : Option Json) : Except JsErr ValidationResult :=
  match parsed with
  | none => .ok ⟨false, [fileParseError], none⟩
  | some data =>
    let structureResult := validateImportDataWithErrors data
    if structureResult.valid then
      match jGet data "activities", jGet data "logs" with
      | some (Json.arr acts), some (Json.arr logs) =>
        (match readAll readActivity acts, readAll readActivityLog logs with
         | some as2, some ls2 =>
           .ok ⟨true, [], some ⟨as2.map sanitizeActivity, ls2.map sanitizeActivityLog⟩⟩
         | _, _ => .error .typeError)
      | _, _ => .error .typeError
    else .ok structureResult

/-- The JSON value `JSON.stringify` produces for one activity: object
fields in declaration order, with an `undefined` `updatedAt` omitted
(as `JSON.stringify` drops `undefined` properties). -/
def activityToJson (a : Activity) : Json :=
  Json.obj
    ([("id", Json.str a.id), ("name", Json.str a.name), ("color", Json.str a.color),
      ("createdAt", Json.str a.createdAt)] ++
     (match a.updatedAt with
      | some u => [("updatedAt", Json.str u)]
      | none => []))

/-- The JSON value `JSON.stringify` produces for one log, with an
`undefined` `notes` omitted. -/
def logToJson (l : ActivityLog) : Json :=
  Json.obj
    ([("id", Json.str l.id), ("activityId", Json.str l.activityId),
      ("date", Json.str l.date), ("completed", Json.bool l.completed)] ++
     (match l.notes with
      | some s => [("notes", Json.str s)]
      | none => []) ++
     [("createdAt", Json.str l.createdAt)])

/-- The export bundle of `exportToJSON` at the value level: parsing the
emitted text with `JSON.parse` yields exactly this value, so the import
side is stated against it.  `now` stands for the
`new Date().toISOString()` timestamp taken at export time. -/
def exportJson (activities : List Activity) (logs : List ActivityLog) (now : String) : Json :=
  Json.obj
    [("activities", Json.arr (activities.map activityToJson)),
     ("logs", Json.arr (logs.map logToJson)),
     ("exportedAt", Json.str now),
     ("version", Json.str "1.0")]

mutual

/-- A plain JSON serializer for the value level of `JSON.stringify`
(string escaping and the 2-space indentation of the original are not
modelled; no claim inspects the emitted text). -/
def jsonStringify : Json → String
  | .null => "null"
  | .bool b => if b then "true" else "false"
  | .num n => toString n
  | .str s => "\"" ++ s ++ "\""
  | .arr elems => "[" ++ stringifyElems elems ++ "]"
  | .obj fields => "\x7b" ++ stringifyFields fields ++ "\x7d"

/-- Comma-separated serialization of array elements. -/
def stringifyElems : List Json → String
  | [] => ""
  | [j] => jsonStringify j
  | j :: rest => jsonStringify j ++ "," ++ stringifyElems rest

/-- Comma-separated serialization of object fields. -/
def stringifyFields : List (String × Json) → String
  | [] => ""
  | [(k, v)] => "\"" ++ k ++ "\":" ++ jsonStringify v
  | (k, v) :: rest => "\"" ++ k ++ "\":" ++ jsonStringify v ++ "," ++ stringifyFields rest

end

/-- `exportToJSON` from the source: serialize the export bundle. -/
def exportToJSON (activities : List Activity) (logs : List ActivityLog) (now : String) : String :=
  jsonStringify (exportJson activities logs now)

/-- One activity row of `exportToCSV`.  The source calls
`escapeCSV(activity.updatedAt)`; when `updatedAt` is absent this calls a
string method on `undefined` and throws a `TypeError`, modelled as
`Except.error`. -/
def activityCSVRow (activity : Activity) : Except JsErr String :=
  match activity.updatedAt with
  | none => .error .typeError
  | some u =>
    .ok (escapeCSV activity.id ++ "," ++ escapeCSV activity.name ++ "," ++
      escapeCSV activity.color ++ "," ++ escapeCSV activity.createdAt ++ "," ++ escapeCSV u)

/-- One log row of `exportToCSV`; `log.notes || ''` sends absent notes
to the empty field and `log.completed` is written as `true`/`false`. -/
def logCSVRow (log : ActivityLog) : String :=
  escapeCSV log.id ++ "," ++ escapeCSV log.activityId ++ "," ++ escapeCSV log.date ++ "," ++
  (if log.completed then "true" else "false") ++ "," ++
  escapeCSV (match log.notes with | some s => s | none => "") ++ "," ++
  escapeCSV log.createdAt

/-- `exportToCSV` from the source: the two labeled sections joined with
newlines. -/
def exportToCSV (activities : List Activity) (logs : List ActivityLog) : Except JsErr String := do
  let actRows ← activities.mapM activityCSVRow
  pure (String.intercalate "\n"
    (["# Activities", "id,name,color,createdAt,updatedAt"] ++ actRows ++
     [""] ++ ["# Logs", "id,activityId,date,completed,notes,createdAt"] ++
     logs.map logCSVRow))

/-- `mergeData` from the source: keep all existing entities, then append
the imported ones whose id is not already present (the JS `Set` of
existing ids is modelled by the list of ids with membership lookup). -/
def mergeData (existingActivities : List Activity) (existingLogs : List ActivityLog)
    (importedActivities : List Activity) (importedLogs : List ActivityLog) : DataSet :=
  let existingActivityIds := existingActivities.map (fun a => a.id)
  let existingLogIds := existingLogs.map (fun l => l.id)
  let newActivities := importedActivities.filter (fun a => !(existingActivityIds.contains a.id))
  let newLogs := importedLogs.filter (fun l => !(existingLogIds.contains l.id))
  ⟨existingActivities ++ newActivities, existingLogs ++ newLogs⟩

/-- Fuel-driven worker for `decLG`. -/
def decGo : Nat → List Char → List Char
  | _, [] => []
  | 0, l => l
  | f + 1, a :: l =>
    if headSegB entLt (a :: l) then '<' :: decGo f (List.drop 3 l)
    else if headSegB entGt (a :: l) then '>' :: decGo f (List.drop 3 l)
    else a :: decGo f l

/-- Proof-side single-pass decoder of `&lt;`/`&gt;`; on angle-free input
it agrees with the two chained replacements of the source. -/
def decLG (l : List Char) : List Char := decGo l.length l

/-- Proof-side single-pass encoder of `<`/`>`; it agrees with the two
chained re-encoding replacements of the source. -/
def encLG : List Char → List Char
  | [] => []
  | c :: cs =>
    if c == '<' then entLt ++ encLG cs
    else if c == '>' then entGt ++ encLG cs
    else c :: encLG cs

/-- A well-formed sample activity (the shape the test helpers build). -/
def sampleActivity : Activity :=
  ⟨"activity-1", "Test Activity", "#10B981", "2024-01-15T10:00:00.000Z",
   some "2024-01-15T10:00:00.000Z"⟩

/-- A well-formed sample log. -/
def sampleLog : ActivityLog :=
  ⟨"log-1", "activity-1", "2024-01-15", true, some "Test notes",
   "2024-01-15T10:00:00.000Z"⟩

/-- An activity whose name and notes are clean but whose color is not a
hex color. -/
def badColorActivity : Activity :=
  ⟨"a1", "Exercise", "red", "2024-01-15T10:00:00.000Z", none⟩

/-- A well-formed activity whose optional `updatedAt` is absent. -/
def noUpdatedAtActivity : Activity :=
  ⟨"a1", "Exercise", "#10B981", "2024-01-15T10:00:00.000Z", none⟩

/-- A bundle value with the given activities and logs arrays (the
validator inspects only these two fields). -/
def mkBundle (acts logs : List Json) : Json :=
  Json.obj [("activities", Json.arr acts), ("logs", Json.arr logs)]

/-! ### Basic helper lemmas -/

theorem strData_append (a b : String) : (a ++ b).data = a.data ++ b.data := by
  cases a; cases b; rfl

theorem strAppend_assoc (a b c : String) : (a ++ b) ++ c = a ++ (b ++ c) := by
  cases a with
  | mk da =>
    cases b with
    | mk db =>
      cases c with
      | mk dc => exact congrArg String.mk (List.append_assoc da db dc)

theorem headSegB_iff (p l : List Char) : headSegB p l = true ↔ HeadSeg p l := by
  induction p generalizing l with
  | nil => simp [headSegB, HeadSeg]
  | cons x p ih =>
    cases l with
    | nil =>
      simp [headSegB, HeadSeg]
    | cons y l =>
      simp only [headSegB, Bool.and_eq_true, beq_iff_eq, ih, HeadSeg]
      constructor
      · rintro ⟨rfl, t, rfl⟩
        exact ⟨t, rfl⟩
      · rintro ⟨t, h⟩
        simp only [List.cons_append, List.cons.injEq] at h
        exact ⟨h.1.symm, t, h.2⟩

theorem headSegB_eq_false_iff (p l : List Char) : headSegB p l = false ↔ ¬ HeadSeg p l := by
  rw [← headSegB_iff]
  cases headSegB p l <;> simp

theorem headSeg_nil (l : List Char) : HeadSeg [] l := ⟨l, rfl⟩

theorem headSeg_self_append (p t : List Char) : HeadSeg p (p ++ t) := ⟨t, rfl⟩

theorem subSegB_iff (p l : List Char) : subSegB p l = true ↔ SubSeg p l := by
  induction l with
  | nil =>
    simp only [subSegB, headSegB_iff, SubSeg, HeadSeg]
    constructor
    · rintro ⟨t, h⟩
      exact ⟨[], t, h⟩
    · rintro ⟨s, t, h⟩
      rcases List.append_eq_nil.mp h.symm with ⟨h1, h2⟩
      rcases List.append_eq_nil.mp h1 with ⟨h3, h4⟩
      exact ⟨[], by simp [h3, h4]⟩
  | cons y l ih =>
    simp only [subSegB, Bool.or_eq_true, headSegB_iff, ih, SubSeg, HeadSeg]
    constructor
    · rintro (⟨t, h⟩ | ⟨s, t, h⟩)
      · exact ⟨[], t, h⟩
      · exact ⟨y :: s, t, by simp [h]⟩
    · rintro ⟨s, t, h⟩
      cases s with
      | nil => exact Or.inl ⟨t, by simpa using h⟩
      | cons a s =>
        simp only [List.cons_append, List.cons.injEq] at h
        exact Or.inr ⟨s, t, h.2⟩

theorem subSegB_eq_false_iff (p l : List Char) : subSegB p l = false ↔ ¬ SubSeg p l := by
  rw [← subSegB_iff]
  cases subSegB p l <;> simp

theorem subSeg_of_headSeg {p l : List Char} (h : HeadSeg p l) : SubSeg p l := by
  rcases h with ⟨t, rfl⟩
  exact ⟨[], t, rfl⟩

theorem subSeg_cons {p : List Char} {a : Char} {l : List Char} (h : SubSeg p l) :
    SubSeg p (a :: l) := by
  rcases h with ⟨s, t, rfl⟩
  exact ⟨a :: s, t, rfl⟩

theorem subSeg_cons_elim {p : List Char} {a : Char} {l : List Char} (h : SubSeg p (a :: l)) :
    HeadSeg p (a :: l) ∨ SubSeg p l := by
  rcases h with ⟨s, t, hs⟩
  cases s with
  | nil => exact Or.inl ⟨t, by simpa using hs⟩
  | cons b s =>
    simp only [List.cons_append, List.cons.injEq] at hs
    exact Or.inr ⟨s, t, hs.2⟩

theorem subSeg_nil_elim {p : List Char} (h : SubSeg p []) : p = [] := by
  rcases h with ⟨s, t, hs⟩
  rcases List.append_eq_nil.mp hs.symm with ⟨h1, h2⟩
  exact (List.append_eq_nil.mp h1).2

theorem subSeg_of_drop {p : List Char} {k : Nat} {l : List Char} (h : SubSeg p (List.drop k l)) :
    SubSeg p l := by
  rcases h with ⟨s, t, hs⟩
  refine ⟨List.take k l ++ s, t, ?_⟩
  conv_lhs => rw [← List.take_append_drop k l, hs]
  simp [List.append_assoc]

theorem subSeg_nil_pat (l : List Char) : SubSeg [] l := ⟨[], l, rfl⟩

theorem charLe_iff_toNat (a b : Char) : a ≤ b ↔ a.toNat ≤ b.toNat := by
  rw [Char.le_def]
  exact UInt32.le_def

theorem headSegB_false_of_ne {a b : Char} (p l : List Char) (h : a ≠ b) :
    headSegB (a :: p) (b :: l) = false := by
  simp [headSegB, h]

theorem repGo_agree (p r : List Char) :
    ∀ (n : Nat) (l : List Char) (f g : Nat), l.length = n → l.length ≤ f → l.length ≤ g →
      repGo p r f l = repGo p r g l := by
  intro n
  induction n using Nat.strong_induction_on with
  | _ n ih =>
    intro l f g hn hf hg
    cases l with
    | nil => cases f <;> cases g <;> rfl
    | cons a l =>
      cases f with
      | zero => simp at hf
      | succ f =>
        cases g with
        | zero => simp at hg
        | succ g =>
          simp only [repGo]
          by_cases hm : (headSegB p (a :: l) && !p.isEmpty) = true
          · rw [if_pos hm, if_pos hm]
            have hlen : (List.drop (p.length - 1) l).length < n := by
              have := List.length_drop (p.length - 1) l
              simp at hn
              omega
            rw [ih _ hlen _ f g rfl (by have := List.length_drop (p.length - 1) l; simp at hf; omega)
              (by have := List.length_drop (p.length - 1) l; simp at hg; omega)]
          · rw [if_neg hm, if_neg hm]
            have hlen : l.length < n := by simp at hn; omega
            rw [ih _ hlen _ f g rfl (by simp at hf; omega) (by simp at hg; omega)]

theorem repGo_eq_rep (p r : List Char) (f : Nat) (l : List Char) (h : l.length ≤ f) :
    repGo p r f l = rep p r l :=
  repGo_agree p r l.length l f l.length rfl h (le_refl _)

theorem rep_nil (p r : List Char) : rep p r [] = [] := by
  cases p <;> rfl

theorem rep_cons_match {p : List Char} (r : List Char) {a : Char} {l : List Char}
    (h : headSegB p (a :: l) = true) (hp : p ≠ []) :
    rep p r (a :: l) = r ++ rep p r (List.drop (p.length - 1) l) := by
  show repGo p r (a :: l).length (a :: l) = _
  simp only [List.length_cons, repGo]
  rw [if_pos (by simp [h, List.isEmpty_iff, hp])]
  rw [repGo_eq_rep _ _ _ _ (by have := List.length_drop (p.length - 1) l; omega)]

theorem rep_cons_nomatch {p : List Char} (r : List Char) {a : Char} {l : List Char}
    (h : headSegB p (a :: l) = false) :
    rep p r (a :: l) = a :: rep p r l := by
  show repGo p r (a :: l).length (a :: l) = _
  simp only [List.length_cons, repGo]
  rw [if_neg (by simp [h])]
  rw [repGo_eq_rep _ _ _ _ (le_refl _)]

theorem rep_empty_pat (r : List Char) : ∀ l, rep [] r l = l := by
  intro l
  induction l with
  | nil => rfl
  | cons a l ih =>
    show repGo [] r (a :: l).length (a :: l) = a :: l
    simp only [List.length_cons, repGo, headSegB, List.isEmpty, Bool.not_true, Bool.and_false]
    rw [if_neg (by simp)]
    rw [repGo_eq_rep _ _ _ _ (le_refl _), ih]

theorem mem_rep_elim {p r l : List Char} {c : Char} (h : c ∈ rep p r l) : c ∈ l ∨ c ∈ r := by
  generalize hn : l.length = n
  induction n using Nat.strong_induction_on generalizing l with
  | _ n ih =>
    cases l with
    | nil => rw [rep_nil] at h; simp at h
    | cons a l =>
      by_cases hp : p = []
      · subst hp
        rw [rep_empty_pat] at h
        exact Or.inl h
      · by_cases hm : headSegB p (a :: l) = true
        · rw [rep_cons_match r hm hp] at h
          rcases List.mem_append.mp h with h | h
          · exact Or.inr h
          · have hlen : (List.drop (p.length - 1) l).length < n := by
              have := List.length_drop (p.length - 1) l
              simp at hn
              omega
            rcases ih _ hlen h rfl with h | h
            · exact Or.inl (List.mem_cons_of_mem a (List.mem_of_mem_drop h))
            · exact Or.inr h
        · rw [rep_cons_nomatch r (by simpa using hm)] at h
          rcases List.mem_cons.mp h with h | h
          · exact Or.inl (by simp [h])
          · have hlen : l.length < n := by simp at hn; omega
            rcases ih _ hlen h rfl with h | h
            · exact Or.inl (List.mem_cons_of_mem a h)
            · exact Or.inr h

theorem not_mem_rep_single_aux {c : Char} {r : List Char} (hc : c ∉ r) :
    ∀ (n : Nat) (l : List Char), l.length ≤ n → c ∉ rep [c] r l := by
  intro n
  induction n with
  | zero =>
    intro l hl
    rw [List.length_eq_zero.mp (Nat.le_zero.mp hl), rep_nil]
    simp
  | succ n ih =>
    intro l hl
    cases l with
    | nil => rw [rep_nil]; simp
    | cons a l =>
      simp only [List.length_cons, Nat.succ_le_succ_iff] at hl
      by_cases hm : headSegB [c] (a :: l) = true
      · rw [rep_cons_match r hm (by simp)]
        intro hmem
        rcases List.mem_append.mp hmem with h | h
        · exact hc h
        · exact ih _ (by simpa using hl) h
      · rw [rep_cons_nomatch r (by simpa using hm)]
        have hne : c ≠ a := by
          intro he
          subst he
          simp [headSegB] at hm
        intro hmem
        rcases List.mem_cons.mp hmem with h | h
        · exact hne h
        · exact ih _ hl h

theorem not_mem_rep_single {c : Char} {r : List Char} (hc : c ∉ r) (l : List Char) :
    c ∉ rep [c] r l :=
  not_mem_rep_single_aux hc l.length l (le_refl _)

theorem rep_id_of_not_sub_aux {p : List Char} (r : List Char) (_hp : p ≠ []) :
    ∀ (n : Nat) (l : List Char), l.length ≤ n → ¬ SubSeg p l → rep p r l = l := by
  intro n
  induction n with
  | zero =>
    intro l hl _
    rw [List.length_eq_zero.mp (Nat.le_zero.mp hl), rep_nil]
  | succ n ih =>
    intro l hl hsub
    cases l with
    | nil => exact rep_nil p r
    | cons a l =>
      simp only [List.length_cons, Nat.succ_le_succ_iff] at hl
      by_cases hm : headSegB p (a :: l) = true
      · exact absurd (subSeg_of_headSeg ((headSegB_iff _ _).mp hm)) hsub
      · rw [rep_cons_nomatch r (by simpa using hm)]
        rw [ih l hl (fun hs => hsub (subSeg_cons hs))]

theorem rep_id_of_not_sub {p : List Char} (r : List Char) (hp : p ≠ []) (l : List Char)
    (h : ¬ SubSeg p l) : rep p r l = l :=
  rep_id_of_not_sub_aux r hp l.length l (le_refl _) h

theorem headSeg_rep_single_elim_aux {p : List Char} {c : Char} (hp : p ≠ []) :
    ∀ (n : Nat) (u q : List Char), u.length ≤ n → c ∉ q → HeadSeg q (rep p [c] u) →
      HeadSeg q u := by
  intro n
  induction n with
  | zero =>
    intro u q hu hc h
    rw [List.length_eq_zero.mp (Nat.le_zero.mp hu)] at h ⊢
    rw [rep_nil] at h
    rcases h with ⟨t, ht⟩
    rcases List.append_eq_nil.mp ht.symm with ⟨h1, _⟩
    subst h1
    exact headSeg_nil _
  | succ n ih =>
    intro u q hu hc h
    cases u with
    | nil =>
      rw [rep_nil] at h
      rcases h with ⟨t, ht⟩
      rcases List.append_eq_nil.mp ht.symm with ⟨h1, _⟩
      subst h1
      exact headSeg_nil _
    | cons a u =>
      simp only [List.length_cons, Nat.succ_le_succ_iff] at hu
      by_cases hm : headSegB p (a :: u) = true
      · rw [rep_cons_match [c] hm hp] at h
        rcases h with ⟨t, ht⟩
        cases q with
        | nil => exact headSeg_nil _
        | cons b q =>
          simp only [List.cons_append, List.singleton_append, List.cons.injEq] at ht
          exact absurd (ht.1 ▸ List.mem_cons_self b q) (ht.1 ▸ hc)
      · rw [rep_cons_nomatch [c] (by simpa using hm)] at h
        rcases h with ⟨t, ht⟩
        cases q with
        | nil => exact headSeg_nil _
        | cons b q =>
          simp only [List.cons_append, List.cons.injEq] at ht
          have hq : HeadSeg q (rep p [c] u) := ⟨t, ht.2⟩
          have := ih u q hu (fun hx => hc (List.mem_cons_of_mem b hx)) hq
          rcases this with ⟨t2, ht2⟩
          exact ⟨t2, by rw [ht.1, ht2]; simp⟩

theorem subSeg_rep_single_elim_aux {p : List Char} {c : Char} (hp : p ≠ []) :
    ∀ (n : Nat) (u q : List Char), u.length ≤ n → c ∉ q → SubSeg q (rep p [c] u) →
      SubSeg q u := by
  intro n
  induction n with
  | zero =>
    intro u q hu hc h
    rw [List.length_eq_zero.mp (Nat.le_zero.mp hu)] at h ⊢
    rw [rep_nil] at h
    rw [subSeg_nil_elim h]
    exact subSeg_nil_pat _
  | succ n ih =>
    intro u q hu hc h
    cases u with
    | nil =>
      rw [rep_nil] at h
      rw [subSeg_nil_elim h]
      exact subSeg_nil_pat _
    | cons a u =>
      simp only [List.length_cons, Nat.succ_le_succ_iff] at hu
      by_cases hm : headSegB p (a :: u) = true
      · rw [rep_cons_match [c] hm hp] at h
        simp only [List.singleton_append] at h
        rcases subSeg_cons_elim h with h | h
        · rcases h with ⟨t, ht⟩
          cases q with
          | nil => exact subSeg_nil_pat _
          | cons b q =>
            simp only [List.cons_append, List.cons.injEq] at ht
            exact absurd (ht.1 ▸ List.mem_cons_self b q) (ht.1 ▸ hc)
        · have hlen : (List.drop (p.length - 1) u).length ≤ n := by
            have := List.length_drop (p.length - 1) u
            omega
          have := ih _ q hlen hc h
          exact subSeg_cons (subSeg_of_drop this)
      · rw [rep_cons_nomatch [c] (by simpa using hm)] at h
        rcases subSeg_cons_elim h with h | h
        · cases q with
          | nil => exact subSeg_nil_pat _
          | cons b q =>
            rcases h with ⟨t, ht⟩
            simp only [List.cons_append, List.cons.injEq] at ht
            have hq : HeadSeg q (rep p [c] u) := ⟨t, ht.2⟩
            have := headSeg_rep_single_elim_aux hp u.length u q (le_refl _)
              (fun hx => hc (List.mem_cons_of_mem b hx)) hq
            rcases this with ⟨t2, ht2⟩
            exact subSeg_of_headSeg ⟨t2, by rw [ht.1, ht2]; simp⟩
        · exact subSeg_cons (ih u q hu hc h)

theorem subSeg_rep_single_elim {p : List Char} {c : Char} {q u : List Char}
    (hp : p ≠ []) (hc : c ∉ q) (h : SubSeg q (rep p [c] u)) : SubSeg q u :=
  subSeg_rep_single_elim_aux hp u.length u q (le_refl _) hc h

theorem mem_trimStartL {c : Char} {l : List Char} (h : c ∈ trimStartL l) : c ∈ l :=
  (List.dropWhile_sublist jsWhitespace).mem h

theorem mem_trimEndL {c : Char} {l : List Char} (h : c ∈ trimEndL l) : c ∈ l := by
  unfold trimEndL at h
  rw [List.mem_reverse] at h
  exact List.mem_reverse.mp ((List.dropWhile_sublist jsWhitespace).mem h)

theorem mem_jsTrimL {c : Char} {l : List Char} (h : c ∈ jsTrimL l) : c ∈ l :=
  mem_trimStartL (mem_trimEndL h)

theorem dropWhile_self_idem (p : Char → Bool) (l : List Char) :
    (l.dropWhile p).dropWhile p = l.dropWhile p := by
  induction l with
  | nil => rfl
  | cons a l ih =>
    by_cases h : p a = true
    · rw [List.dropWhile_cons_of_pos h, ih]
    · rw [List.dropWhile_cons_of_neg (by simpa using h),
        List.dropWhile_cons_of_neg (by simpa using h)]

theorem trimStartL_idem (l : List Char) : trimStartL (trimStartL l) = trimStartL l :=
  dropWhile_self_idem jsWhitespace l

theorem trimEndL_idem (l : List Char) : trimEndL (trimEndL l) = trimEndL l := by
  unfold trimEndL
  rw [List.reverse_reverse, dropWhile_self_idem]

theorem dropWhile_eq_self_of_no_head {p : Char → Bool} {l : List Char}
    (h : l.dropWhile p = l) (n : Nat) : (l.take n).dropWhile p = l.take n := by
  cases l with
  | nil => simp
  | cons a l =>
    have ha : p a = false := by
      by_cases hpa : p a = true
      · rw [List.dropWhile_cons_of_pos hpa] at h
        have := List.Sublist.length_le (List.dropWhile_sublist p (l := l))
        rw [h] at this
        simp at this
      · simpa using hpa
    cases n with
    | zero => simp
    | succ n =>
      simp only [List.take_succ_cons]
      rw [List.dropWhile_cons_of_neg (by simp [ha])]

theorem dropWhile_eq_drop_ex (p : Char → Bool) (l : List Char) :
    ∃ m, l.dropWhile p = l.drop m := by
  induction l with
  | nil => exact ⟨0, rfl⟩
  | cons a l ih =>
    by_cases h : p a = true
    · rcases ih with ⟨m, hm⟩
      exact ⟨m + 1, by rw [List.dropWhile_cons_of_pos h]; simpa using hm⟩
    · exact ⟨0, by rw [List.dropWhile_cons_of_neg (by simpa using h)]; simp⟩

theorem trimEndL_eq_take (l : List Char) : ∃ n, trimEndL l = l.take n := by
  rcases dropWhile_eq_drop_ex jsWhitespace l.reverse with ⟨m, hm⟩
  refine ⟨l.length - m, ?_⟩
  unfold trimEndL
  rw [hm, List.reverse_drop, List.reverse_reverse, List.length_reverse]

theorem jsTrimL_idem (l : List Char) : jsTrimL (jsTrimL l) = jsTrimL l := by
  unfold jsTrimL
  have h1 : trimStartL (trimEndL (trimStartL l)) = trimEndL (trimStartL l) := by
    rcases trimEndL_eq_take (trimStartL l) with ⟨n, hn⟩
    rw [hn]
    exact dropWhile_eq_self_of_no_head (trimStartL_idem l) n
  rw [h1, trimEndL_idem]

theorem jsTrimL_of_no_ws {l : List Char} (h : ∀ c ∈ l, jsWhitespace c = false) :
    jsTrimL l = l := by
  have hstart : trimStartL l = l := by
    cases l with
    | nil => rfl
    | cons a l =>
      exact List.dropWhile_cons_of_neg (by simp [h a (List.mem_cons_self a l)])
  have hend : trimEndL l = l := by
    unfold trimEndL
    have : l.reverse.dropWhile jsWhitespace = l.reverse := by
      cases hr : l.reverse with
      | nil => rfl
      | cons a m =>
        refine List.dropWhile_cons_of_neg ?_
        have : a ∈ l := by
          rw [← List.mem_reverse, hr]
          exact List.mem_cons_self a m
        simp [h a this]
    rw [this, List.reverse_reverse]
  unfold jsTrimL
  rw [hstart, hend]

theorem rtGo_agree : ∀ (n : Nat) (l : List Char) (f g : Nat), l.length ≤ n →
    l.length ≤ f → l.length ≤ g → rtGo f l = rtGo g l := by
  intro n
  induction n with
  | zero =>
    intro l f g hn _ _
    rw [List.length_eq_zero.mp (Nat.le_zero.mp hn)]
    cases f <;> cases g <;> rfl
  | succ n ih =>
    intro l f g hn hf hg
    cases l with
    | nil => cases f <;> cases g <;> rfl
    | cons a l =>
      cases f with
      | zero => simp at hf
      | succ f =>
        cases g with
        | zero => simp at hg
        | succ g =>
          simp only [List.length_cons, Nat.succ_le_succ_iff] at hn hf hg
          simp only [rtGo]
          by_cases ha : a == '<'
          · rw [if_pos ha, if_pos ha]
            by_cases hgt : l.contains '>'
            · rw [if_pos hgt, if_pos hgt]
              have hlen : ((l.dropWhile (fun c => !(c == '>'))).tail).length ≤ l.length := by
                have h1 := List.Sublist.length_le
                  (List.dropWhile_sublist (fun c => !(c == '>')) (l := l))
                have h2 := List.length_tail (l.dropWhile (fun c => !(c == '>')))
                omega
              exact ih _ _ _ (le_trans hlen hn) (le_trans hlen hf) (le_trans hlen hg)
            · rw [if_neg hgt, if_neg hgt, ih l f g hn hf hg]
          · rw [if_neg ha, if_neg ha, ih l f g hn hf hg]

theorem rtGo_eq_removeTags (f : Nat) (l : List Char) (h : l.length ≤ f) :
    rtGo f l = removeTagsL l :=
  rtGo_agree l.length l f l.length (le_refl _) h (le_refl _)

theorem removeTags_cons_lt {l : List Char} (hgt : l.contains '>' = true) :
    removeTagsL ('<' :: l) = removeTagsL ((l.dropWhile (fun c => !(c == '>'))).tail) := by
  show rtGo ('<' :: l).length ('<' :: l) = _
  simp only [List.length_cons, rtGo, beq_self_eq_true, if_true, hgt, if_pos]
  refine rtGo_eq_removeTags _ _ ?_
  have h1 := List.Sublist.length_le (List.dropWhile_sublist (fun c => !(c == '>')) (l := l))
  have h2 := List.length_tail (l.dropWhile (fun c => !(c == '>')))
  omega

theorem removeTags_cons_lt_nogt {l : List Char} (hgt : l.contains '>' = false) :
    removeTagsL ('<' :: l) = '<' :: removeTagsL l := by
  show rtGo ('<' :: l).length ('<' :: l) = _
  simp only [List.length_cons, rtGo, beq_self_eq_true, if_true, hgt]
  rw [if_neg (by simp)]
  rw [rtGo_eq_removeTags _ _ (le_refl _)]

theorem removeTags_cons_ne {a : Char} {l : List Char} (ha : a ≠ '<') :
    removeTagsL (a :: l) = a :: removeTagsL l := by
  show rtGo (a :: l).length (a :: l) = _
  simp only [List.length_cons, rtGo]
  rw [if_neg (by simpa using ha)]
  rw [rtGo_eq_removeTags _ _ (le_refl _)]

theorem removeTags_id {l : List Char} (h : '<' ∉ l) : removeTagsL l = l := by
  induction l with
  | nil => rfl
  | cons a l ih =>
    have ha : a ≠ '<' := fun he => h (he ▸ List.mem_cons_self a l)
    rw [removeTags_cons_ne ha, ih (fun hx => h (List.mem_cons_of_mem a hx))]

theorem sanitizeL_no_angle (l : List Char) :
    '<' ∉ sanitizeL l ∧ '>' ∉ sanitizeL l := by
  unfold sanitizeL
  set x := rep entApos ['\'']
    (rep entQuot ['"'] (rep entAmp ['&'] (rep entGt ['>'] (rep entLt ['<'] (removeTagsL l)))))
    with hx
  have hlt1 : '<' ∉ rep ['<'] entLt x := not_mem_rep_single (by decide) x
  have hlt2 : '<' ∉ rep ['>'] entGt (rep ['<'] entLt x) := by
    intro h
    rcases mem_rep_elim h with h | h
    · exact hlt1 h
    · simp [entGt] at h
  have hgt : '>' ∉ rep ['>'] entGt (rep ['<'] entLt x) :=
    not_mem_rep_single (by decide) _
  exact ⟨fun h => hlt2 (mem_jsTrimL h), fun h => hgt (mem_jsTrimL h)⟩

theorem mk_data (l : List Char) : (String.mk l).data = l := rfl

set_option maxHeartbeats 1000000 in
theorem sanitizeString_data (s : String) : (sanitizeString s).data = sanitizeL s.data := by
  unfold sanitizeString
  rw [mk_data]

theorem sanitizeString_no_angle (s : String) :
    '<' ∉ (sanitizeString s).data ∧ '>' ∉ (sanitizeString s).data := by
  rw [sanitizeString_data]
  exact sanitizeL_no_angle s.data

theorem sanitizeL_trimmed (l : List Char) : jsTrimL (sanitizeL l) = sanitizeL l := by
  unfold sanitizeL
  rw [jsTrimL_idem]

theorem decGo_agree : ∀ (n : Nat) (l : List Char) (f g : Nat), l.length ≤ n →
    l.length ≤ f → l.length ≤ g → decGo f l = decGo g l := by
  intro n
  induction n with
  | zero =>
    intro l f g hn _ _
    rw [List.length_eq_zero.mp (Nat.le_zero.mp hn)]
    cases f <;> cases g <;> rfl
  | succ n ih =>
    intro l f g hn hf hg
    cases l with
    | nil => cases f <;> cases g <;> rfl
    | cons a l =>
      cases f with
      | zero => simp at hf
      | succ f =>
        cases g with
        | zero => simp at hg
        | succ g =>
          simp only [List.length_cons, Nat.succ_le_succ_iff] at hn hf hg
          have hd : (List.drop 3 l).length ≤ n := by
            have := List.length_drop 3 l
            omega
          have hdf : (List.drop 3 l).length ≤ f := by
            have := List.length_drop 3 l
            omega
          have hdg : (List.drop 3 l).length ≤ g := by
            have := List.length_drop 3 l
            omega
          simp only [decGo]
          by_cases h1 : headSegB entLt (a :: l) = true
          · rw [if_pos h1, if_pos h1, ih _ _ _ hd hdf hdg]
          · rw [if_neg h1, if_neg h1]
            by_cases h2 : headSegB entGt (a :: l) = true
            · rw [if_pos h2, if_pos h2, ih _ _ _ hd hdf hdg]
            · rw [if_neg h2, if_neg h2, ih l f g hn hf hg]

theorem decGo_eq_decLG (f : Nat) (l : List Char) (h : l.length ≤ f) : decGo f l = decLG l :=
  decGo_agree l.length l f l.length (le_refl _) h (le_refl _)

theorem decLG_cons_lt {a : Char} {l : List Char} (h : headSegB entLt (a :: l) = true) :
    decLG (a :: l) = '<' :: decLG (List.drop 3 l) := by
  show decGo (a :: l).length (a :: l) = _
  simp only [List.length_cons, decGo, if_pos h]
  rw [decGo_eq_decLG _ _ (by have := List.length_drop 3 l; omega)]

theorem decLG_cons_gt {a : Char} {l : List Char} (h1 : headSegB entLt (a :: l) = false)
    (h2 : headSegB entGt (a :: l) = true) :
    decLG (a :: l) = '>' :: decLG (List.drop 3 l) := by
  show decGo (a :: l).length (a :: l) = _
  simp only [List.length_cons, decGo, h1, if_pos h2]
  rw [if_neg (by simp)]
  rw [decGo_eq_decLG _ _ (by have := List.length_drop 3 l; omega)]

theorem decLG_cons_other {a : Char} {l : List Char} (h1 : headSegB entLt (a :: l) = false)
    (h2 : headSegB entGt (a :: l) = false) :
    decLG (a :: l) = a :: decLG l := by
  show decGo (a :: l).length (a :: l) = _
  simp only [List.length_cons, decGo, h1, h2]
  rw [if_neg (by simp), if_neg (by simp)]
  rw [decGo_eq_decLG _ _ (le_refl _)]

theorem semi_pres (u : List Char) :
    headSegB [';'] (rep entLt ['<'] u) = headSegB [';'] u := by
  cases u with
  | nil => rw [rep_nil]
  | cons b u1 =>
    by_cases hm : headSegB entLt (b :: u1) = true
    · rw [rep_cons_match ['<'] hm (by decide)]
      have hb : b = '&' := by
        simp only [entLt, headSegB, Bool.and_eq_true, beq_iff_eq] at hm
        exact hm.1.symm
      subst hb
      simp [headSegB]
    · rw [rep_cons_nomatch ['<'] (by simpa using hm)]
      simp [headSegB]

theorem ts_pres (u : List Char) :
    headSegB ['t', ';'] (rep entLt ['<'] u) = headSegB ['t', ';'] u := by
  cases u with
  | nil => rw [rep_nil]
  | cons b u1 =>
    by_cases hm : headSegB entLt (b :: u1) = true
    · rw [rep_cons_match ['<'] hm (by decide)]
      have hb : b = '&' := by
        simp only [entLt, headSegB, Bool.and_eq_true, beq_iff_eq] at hm
        exact hm.1.symm
      subst hb
      simp [headSegB]
    · rw [rep_cons_nomatch ['<'] (by simpa using hm)]
      simp only [headSegB]
      rw [semi_pres u1]

theorem gts_pres (u : List Char) :
    headSegB ['g', 't', ';'] (rep entLt ['<'] u) = headSegB ['g', 't', ';'] u := by
  cases u with
  | nil => rw [rep_nil]
  | cons b u1 =>
    by_cases hm : headSegB entLt (b :: u1) = true
    · rw [rep_cons_match ['<'] hm (by decide)]
      have hb : b = '&' := by
        simp only [entLt, headSegB, Bool.and_eq_true, beq_iff_eq] at hm
        exact hm.1.symm
      subst hb
      simp [headSegB]
    · rw [rep_cons_nomatch ['<'] (by simpa using hm)]
      simp only [headSegB]
      rw [ts_pres u1]

theorem headSeg_lt_shape {a : Char} {l : List Char} (h : headSegB entLt (a :: l) = true) :
    a = '&' ∧ ∃ t4, l = 'l' :: 't' :: ';' :: t4 := by
  rcases (headSegB_iff _ _).mp h with ⟨t4, ht⟩
  simp only [entLt, List.cons_append, List.nil_append, List.cons.injEq] at ht
  exact ⟨ht.1, t4, ht.2⟩

theorem headSeg_gt_shape {a : Char} {l : List Char} (h : headSegB entGt (a :: l) = true) :
    a = '&' ∧ ∃ t4, l = 'g' :: 't' :: ';' :: t4 := by
  rcases (headSegB_iff _ _).mp h with ⟨t4, ht⟩
  simp only [entGt, List.cons_append, List.nil_append, List.cons.injEq] at ht
  exact ⟨ht.1, t4, ht.2⟩

theorem chainDec : ∀ (n : Nat) (t : List Char), t.length ≤ n → '<' ∉ t → '>' ∉ t →
    rep entGt ['>'] (rep entLt ['<'] t) = decLG t := by
  intro n
  induction n with
  | zero =>
    intro t hn _ _
    rw [List.length_eq_zero.mp (Nat.le_zero.mp hn)]
    rw [rep_nil, rep_nil]
    rfl
  | succ n ih =>
    intro t hn hlt hgt
    cases t with
    | nil => rw [rep_nil, rep_nil]; rfl
    | cons a t1 =>
      simp only [List.length_cons, Nat.succ_le_succ_iff] at hn
      have hlt1 : '<' ∉ t1 := fun hx => hlt (List.mem_cons_of_mem a hx)
      have hgt1 : '>' ∉ t1 := fun hx => hgt (List.mem_cons_of_mem a hx)
      by_cases h1 : headSegB entLt (a :: t1) = true
      · obtain ⟨ha, t4, ht4⟩ := headSeg_lt_shape h1
        subst ha
        subst ht4
        rw [rep_cons_match ['<'] h1 (by decide)]
        have hdrop : entLt.length - 1 = 3 := rfl
        rw [hdrop]
        simp only [List.drop_succ_cons, List.drop_zero, List.singleton_append]
        rw [rep_cons_nomatch ['>'] (by simp [entGt, headSegB])]
        rw [decLG_cons_lt h1]
        simp only [List.drop_succ_cons, List.drop_zero]
        have ht4n : t4.length ≤ n := by simp at hn; omega
        rw [ih t4 ht4n
          (fun hx => hlt1 (by simp [hx]))
          (fun hx => hgt1 (by simp [hx]))]
      · by_cases h2 : headSegB entGt (a :: t1) = true
        · obtain ⟨ha, t4, ht4⟩ := headSeg_gt_shape h2
          subst ha
          subst ht4
          have hlt4 : '<' ∉ t4 := fun hx => hlt1 (by simp [hx])
          have hgt4 : '>' ∉ t4 := fun hx => hgt1 (by simp [hx])
          rw [rep_cons_nomatch ['<'] (by simpa using h1)]
          rw [rep_cons_nomatch ['<'] (by simp [entLt, headSegB])]
          rw [rep_cons_nomatch ['<'] (by simp [entLt, headSegB])]
          rw [rep_cons_nomatch ['<'] (by simp [entLt, headSegB])]
          rw [rep_cons_match ['>'] (by simp [entGt, headSegB]) (by decide)]
          have hdrop : entGt.length - 1 = 3 := rfl
          rw [hdrop]
          simp only [List.drop_succ_cons, List.drop_zero, List.singleton_append]
          rw [decLG_cons_gt (by simpa using h1) h2]
          simp only [List.drop_succ_cons, List.drop_zero]
          have ht4n : t4.length ≤ n := by simp at hn; omega
          rw [ih t4 ht4n hlt4 hgt4]
        · rw [rep_cons_nomatch ['<'] (by simpa using h1)]
          have h2f : headSegB entGt (a :: t1) = false := by simpa using h2
          have hnm : headSegB entGt (a :: rep entLt ['<'] t1) = false := by
            simp only [entGt, headSegB]
            simp only [entGt, headSegB] at h2f
            rcases Bool.and_eq_false_iff.mp h2f with h | h
            · simp [h]
            · have := gts_pres t1
              simp only [headSegB] at this ⊢
              rw [this, h]
              simp
          rw [rep_cons_nomatch ['>'] hnm]
          rw [decLG_cons_other (by simpa using h1) h2f]
          rw [ih t1 hn hlt1 hgt1]

theorem e2_pass_entLt (X : List Char) :
    rep ['>'] entGt (entLt ++ X) = entLt ++ rep ['>'] entGt X := by
  show rep ['>'] entGt ('&' :: 'l' :: 't' :: ';' :: X) = _
  rw [rep_cons_nomatch entGt (by simp [headSegB])]
  rw [rep_cons_nomatch entGt (by simp [headSegB])]
  rw [rep_cons_nomatch entGt (by simp [headSegB])]
  rw [rep_cons_nomatch entGt (by simp [headSegB])]
  rfl

theorem encChain : ∀ (n : Nat) (v : List Char), v.length ≤ n →
    rep ['>'] entGt (rep ['<'] entLt v) = encLG v := by
  intro n
  induction n with
  | zero =>
    intro v hn
    rw [List.length_eq_zero.mp (Nat.le_zero.mp hn)]
    rw [rep_nil, rep_nil]
    rfl
  | succ n ih =>
    intro v hn
    cases v with
    | nil => rw [rep_nil, rep_nil]; rfl
    | cons a v1 =>
      simp only [List.length_cons, Nat.succ_le_succ_iff] at hn
      by_cases ha : a = '<'
      · subst ha
        rw [rep_cons_match entLt (by simp [headSegB]) (by decide)]
        simp only [List.length_cons, List.length_nil, Nat.sub_self, List.drop_zero]
        rw [e2_pass_entLt]
        rw [ih v1 hn]
        simp [encLG]
      · by_cases hb : a = '>'
        · subst hb
          rw [rep_cons_nomatch entLt (by simp [headSegB])]
          rw [rep_cons_match entGt (by simp [headSegB]) (by decide)]
          simp only [List.length_cons, List.length_nil, Nat.sub_self, List.drop_zero]
          rw [ih v1 hn]
          simp [encLG]
        · rw [rep_cons_nomatch entLt (by simp [headSegB, Ne.symm ha])]
          rw [rep_cons_nomatch entGt (by simp [headSegB, Ne.symm hb])]
          rw [ih v1 hn]
          simp [encLG, ha, hb]

theorem encdec : ∀ (n : Nat) (t : List Char), t.length ≤ n → '<' ∉ t → '>' ∉ t →
    encLG (decLG t) = t := by
  intro n
  induction n with
  | zero =>
    intro t hn _ _
    rw [List.length_eq_zero.mp (Nat.le_zero.mp hn)]
    rfl
  | succ n ih =>
    intro t hn hlt hgt
    cases t with
    | nil => rfl
    | cons a t1 =>
      simp only [List.length_cons, Nat.succ_le_succ_iff] at hn
      have hlt1 : '<' ∉ t1 := fun hx => hlt (List.mem_cons_of_mem a hx)
      have hgt1 : '>' ∉ t1 := fun hx => hgt (List.mem_cons_of_mem a hx)
      by_cases h1 : headSegB entLt (a :: t1) = true
      · obtain ⟨ha, t4, ht4⟩ := headSeg_lt_shape h1
        subst ha
        subst ht4
        rw [decLG_cons_lt h1]
        simp only [List.drop_succ_cons, List.drop_zero]
        show entLt ++ encLG (decLG t4) = _
        rw [ih t4 (by simp at hn; omega)
          (fun hx => hlt1 (by simp [hx]))
          (fun hx => hgt1 (by simp [hx]))]
        rfl
      · by_cases h2 : headSegB entGt (a :: t1) = true
        · obtain ⟨ha, t4, ht4⟩ := headSeg_gt_shape h2
          subst ha
          subst ht4
          rw [decLG_cons_gt (by simpa using h1) h2]
          simp only [List.drop_succ_cons, List.drop_zero]
          show entGt ++ encLG (decLG t4) = _
          rw [ih t4 (by simp at hn; omega)
            (fun hx => hlt1 (by simp [hx]))
            (fun hx => hgt1 (by simp [hx]))]
          rfl
        · rw [decLG_cons_other (by simpa using h1) (by simpa using h2)]
          have ha1 : a ≠ '<' := fun he => hlt (he ▸ List.mem_cons_self a t1)
          have ha2 : a ≠ '>' := fun he => hgt (he ▸ List.mem_cons_self a t1)
          show (if a == '<' then entLt ++ encLG (decLG t1)
            else if a == '>' then entGt ++ encLG (decLG t1)
            else a :: encLG (decLG t1)) = a :: t1
          rw [if_neg (by simp [ha1]), if_neg (by simp [ha2])]
          rw [ih t1 hn hlt1 hgt1]

theorem sanitizeL_fix {t : List Char} (hlt : '<' ∉ t) (hgt : '>' ∉ t)
    (htrim : jsTrimL t = t)
    (hamp : ¬ SubSeg entAmp t) (hquot : ¬ SubSeg entQuot t) (hapos : ¬ SubSeg entApos t) :
    sanitizeL t = t := by
  have hdec : rep entGt ['>'] (rep entLt ['<'] t) = decLG t :=
    chainDec t.length t (le_refl _) hlt hgt
  have hampD : ¬ SubSeg entAmp (rep entGt ['>'] (rep entLt ['<'] t)) := fun hs =>
    hamp (subSeg_rep_single_elim (p := entLt) (by decide) (by decide)
      (subSeg_rep_single_elim (p := entGt) (by decide) (by decide) hs))
  have hquotD : ¬ SubSeg entQuot (rep entGt ['>'] (rep entLt ['<'] t)) := fun hs =>
    hquot (subSeg_rep_single_elim (p := entLt) (by decide) (by decide)
      (subSeg_rep_single_elim (p := entGt) (by decide) (by decide) hs))
  have haposD : ¬ SubSeg entApos (rep entGt ['>'] (rep entLt ['<'] t)) := fun hs =>
    hapos (subSeg_rep_single_elim (p := entLt) (by decide) (by decide)
      (subSeg_rep_single_elim (p := entGt) (by decide) (by decide) hs))
  unfold sanitizeL
  rw [removeTags_id hlt]
  rw [rep_id_of_not_sub ['&'] (by decide) _ hampD]
  rw [rep_id_of_not_sub ['"'] (by decide) _ hquotD]
  rw [rep_id_of_not_sub ['\''] (by decide) _ haposD]
  rw [hdec]
  rw [encChain (decLG t).length _ (le_refl _)]
  rw [encdec t.length t (le_refl _) hlt hgt]
  exact htrim

theorem validateActivity_sample (i : Nat) :
    validateActivity (activityToJson sampleActivity) i = [] := rfl

theorem validateActivityLog_sample (i : Nat) :
    validateActivityLog (logToJson sampleLog) i = [] := rfl

theorem vaf_replicate_sample : ∀ (n : Nat) (i : Nat),
    validateActivitiesFrom (List.replicate n (activityToJson sampleActivity)) i = [] := by
  intro n
  induction n with
  | zero => intro i; rfl
  | succ n ih =>
    intro i
    rw [List.replicate_succ]
    show validateActivity (activityToJson sampleActivity) i ++ _ = []
    rw [validateActivity_sample, ih]
    rfl

theorem vlf_replicate_sample : ∀ (n : Nat) (i : Nat),
    validateLogsFrom (List.replicate n (logToJson sampleLog)) i = [] := by
  intro n
  induction n with
  | zero => intro i; rfl
  | succ n ih =>
    intro i
    rw [List.replicate_succ]
    show validateActivityLog (logToJson sampleLog) i ++ _ = []
    rw [validateActivityLog_sample, ih]
    rfl

theorem validateId_field {s f : String} {i : Option Nat} {e : ValidationError}
    (h : e ∈ validateId s f i) : e.field = f := by
  unfold validateId at h
  rcases List.mem_append.mp h with h | h
  · rcases List.mem_append.mp h with h | h
    · rcases List.mem_append.mp h with h | h
      · split at h <;> simp at h <;> simp [h]
      · split at h <;> simp at h <;> simp [h]
    · split at h <;> simp at h <;> simp [h]
  · split at h <;> simp at h <;> simp [h]

theorem strStartsWith_append_self (p r : String) : strStartsWith (p ++ r) p = true := by
  unfold strStartsWith
  rw [strData_append]
  rw [headSegB_iff]
  exact headSeg_self_append _ _

theorem validateActivity_field {j : Json} {i : Nat} {e : ValidationError}
    (h : e ∈ validateActivity j i) :
    ∃ r : String, e.field = "activities[" ++ r := by
  have key : ∀ (suf : String), e.field = ("activities[" ++ toString i ++ "]") ++ suf →
      ∃ r : String, e.field = "activities[" ++ r := by
    intro suf hsuf
    exact ⟨toString i ++ ("]" ++ suf), by
      rw [hsuf, strAppend_assoc, strAppend_assoc]⟩
  have key0 : e.field = "activities[" ++ toString i ++ "]" →
      ∃ r : String, e.field = "activities[" ++ r := by
    intro hsuf
    exact ⟨toString i ++ "]", by rw [hsuf, strAppend_assoc]⟩
  unfold validateActivity at h
  split at h
  · simp at h
    exact key0 (by simp [h])
  · rcases List.mem_append.mp h with h | h
    · rcases List.mem_append.mp h with h | h
      · rcases List.mem_append.mp h with h | h
        · rcases List.mem_append.mp h with h | h
          · split at h
            · exact key ".id" (validateId_field h)
            · simp at h; exact key ".id" (by simp [h])
          · split at h
            · rcases List.mem_append.mp h with h | h
              · split at h <;> simp at h
                exact key ".name" (by simp [h])
              · split at h <;> simp at h
                exact key ".name" (by simp [h])
            · simp at h; exact key ".name" (by simp [h])
        · split at h
          · rcases List.mem_append.mp h with h | h
            · split at h <;> simp at h
              exact key ".color" (by simp [h])
            · split at h <;> simp at h
              exact key ".color" (by simp [h])
          · simp at h; exact key ".color" (by simp [h])
      · split at h
        · split at h <;> simp at h
          exact key ".createdAt" (by simp [h])
        · simp at h; exact key ".createdAt" (by simp [h])
    · split at h
      · simp at h
      · split at h <;> simp at h
        exact key ".updatedAt" (by simp [h])
      · simp at h; exact key ".updatedAt" (by simp [h])

theorem validateActivityLog_field {j : Json} {i : Nat} {e : ValidationError}
    (h : e ∈ validateActivityLog j i) :
    ∃ r : String, e.field = "logs[" ++ r := by
  have key : ∀ (suf : String), e.field = ("logs[" ++ toString i ++ "]") ++ suf →
      ∃ r : String, e.field = "logs[" ++ r := by
    intro suf hsuf
    exact ⟨toString i ++ ("]" ++ suf), by
      rw [hsuf, strAppend_assoc, strAppend_assoc]⟩
  have key0 : e.field = "logs[" ++ toString i ++ "]" →
      ∃ r : String, e.field = "logs[" ++ r := by
    intro hsuf
    exact ⟨toString i ++ "]", by rw [hsuf, strAppend_assoc]⟩
  unfold validateActivityLog at h
  split at h
  · simp at h
    exact key0 (by simp [h])
  · rcases List.mem_append.mp h with h | h
    · rcases List.mem_append.mp h with h | h
      · rcases List.mem_append.mp h with h | h
        · rcases List.mem_append.mp h with h | h
          · rcases List.mem_append.mp h with h | h
            · split at h
              · exact key ".id" (validateId_field h)
              · simp at h; exact key ".id" (by simp [h])
            · split at h
              · exact key ".activityId" (validateId_field h)
              · simp at h; exact key ".activityId" (by simp [h])
          · split at h
            · split at h <;> simp at h
              exact key ".date" (by simp [h])
            · simp at h; exact key ".date" (by simp [h])
        · split at h
          · simp at h
          · simp at h; exact key ".completed" (by simp [h])
      · split at h
        · simp at h
        · simp at h
        · split at h <;> simp at h
          exact key ".notes" (by simp [h])
        · simp at h; exact key ".notes" (by simp [h])
    · split at h
      · split at h <;> simp at h
        exact key ".createdAt" (by simp [h])
      · simp at h; exact key ".createdAt" (by simp [h])

theorem vaf_mem_elim {l : List Json} {i : Nat} {e : ValidationError}
    (h : e ∈ validateActivitiesFrom l i) :
    ∃ (j : Json) (idx : Nat), e ∈ validateActivity j idx := by
  induction l generalizing i with
  | nil => simp [validateActivitiesFrom] at h
  | cons a l ih =>
    rcases List.mem_append.mp h with h | h
    · exact ⟨a, i, h⟩
    · exact ih h

theorem vlf_mem_elim {l : List Json} {i : Nat} {e : ValidationError}
    (h : e ∈ validateLogsFrom l i) :
    ∃ (j : Json) (idx : Nat), e ∈ validateActivityLog j idx := by
  induction l generalizing i with
  | nil => simp [validateLogsFrom] at h
  | cons a l ih =>
    rcases List.mem_append.mp h with h | h
    · exact ⟨a, i, h⟩
    · exact ih h

theorem strStartsWith_logs_not_acts (r : String) :
    strStartsWith ("logs[" ++ r) "activities[" = false := by
  unfold strStartsWith
  rw [strData_append]
  show headSegB ('a' :: _) ('l' :: _) = false
  exact headSegB_false_of_ne _ _ (by decide)

theorem strStartsWith_acts_not_logs (r : String) :
    strStartsWith ("activities[" ++ r) "logs[" = false := by
  unfold strStartsWith
  rw [strData_append]
  show headSegB ('l' :: _) ('a' :: _) = false
  exact headSegB_false_of_ne _ _ (by decide)

theorem field_logs_ne_activities (r : String) : ("logs[" ++ r) ≠ "activities" := by
  intro h
  have h2 := congrArg String.data h
  rw [strData_append] at h2
  have h3 := congrArg (fun l => List.take 5 l) h2
  simp at h3

theorem field_acts_ne_logs (r : String) : ("activities[" ++ r) ≠ "logs" := by
  intro h
  have h2 := congrArg String.data h
  rw [strData_append] at h2
  have h3 := congrArg (fun l => List.take 5 l) h2
  simp at h3

theorem validateResult_sanitizedData_none (j : Json) :
    (validateImportDataWithErrors j).sanitizedData = none := by
  unfold validateImportDataWithErrors
  split
  · rfl
  · rfl

theorem validate_valid_elim {j : Json}
    (h : (validateImportDataWithErrors j).valid = true) :
    isObjectLike j = true ∧
    ∃ acts logs, jGet j "activities" = some (Json.arr acts) ∧
      jGet j "logs" = some (Json.arr logs) ∧
      acts.length ≤ VALIDATION_LIMITS.MAX_ACTIVITIES ∧
      logs.length ≤ VALIDATION_LIMITS.MAX_LOGS ∧
      validateActivitiesFrom acts 0 = [] ∧ validateLogsFrom logs 0 = [] := by
  by_cases hobj : isObjectLike j = true
  · refine ⟨hobj, ?_⟩
    rw [validateImportDataWithErrors] at h
    rw [if_neg (by simp [hobj])] at h
    simp only [ValidationResult.valid] at h
    rw [List.isEmpty_iff, List.append_eq_nil] at h
    obtain ⟨hA, hL⟩ := h
    cases hacts : jGet j "activities" with
    | none => rw [hacts] at hA; simp at hA
    | some v =>
      rw [hacts] at hA
      cases v with
      | arr acts =>
        cases hlogs : jGet j "logs" with
        | none => rw [hlogs] at hL; simp at hL
        | some w =>
          rw [hlogs] at hL
          cases w with
          | arr logs =>
            refine ⟨acts, logs, rfl, rfl, ?_⟩
            simp only at hA hL
            by_cases hlen : acts.length > VALIDATION_LIMITS.MAX_ACTIVITIES
            · rw [if_pos hlen] at hA; simp at hA
            · rw [if_neg hlen] at hA
              by_cases hlen2 : logs.length > VALIDATION_LIMITS.MAX_LOGS
              · rw [if_pos hlen2] at hL; simp at hL
              · rw [if_neg hlen2] at hL
                exact ⟨by omega, by omega, hA, hL⟩
          | null => simp at hL
          | bool b => simp at hL
          | num n => simp at hL
          | str s => simp at hL
          | obj fields => simp at hL
      | null => simp at hA
      | bool b => simp at hA
      | num n => simp at hA
      | str s => simp at hA
      | obj fields => simp at hA
  · rw [validateImportDataWithErrors] at h
    rw [if_pos (by simpa using hobj)] at h
    simp at h

theorem validateId_nil {s f : String} {i : Option Nat} (h : validateId s f i = []) :
    validIdPatternB s = true ∧ s.length ≤ VALIDATION_LIMITS.MAX_ID_LENGTH := by
  unfold validateId at h
  rw [List.append_eq_nil, List.append_eq_nil, List.append_eq_nil] at h
  obtain ⟨⟨⟨_, h2⟩, _⟩, h4⟩ := h
  constructor
  · by_cases hp : validIdPatternB s = true
    · exact hp
    · rw [if_pos (by simp [hp])] at h4
      simp at h4
  · by_cases hl : s.length > VALIDATION_LIMITS.MAX_ID_LENGTH
    · rw [if_pos (by simp [hl])] at h2
      simp at h2
    · omega

theorem validateActivity_nil_elim {j : Json} {i : Nat} (h : validateActivity j i = []) :
    ∃ id name color createdAt, jGet j "id" = some (Json.str id) ∧
      jGet j "name" = some (Json.str name) ∧
      jGet j "color" = some (Json.str color) ∧
      jGet j "createdAt" = some (Json.str createdAt) ∧
      validIdPatternB id = true ∧ id.length ≤ VALIDATION_LIMITS.MAX_ID_LENGTH ∧
      name.length ≤ VALIDATION_LIMITS.MAX_NAME_LENGTH ∧
      isValidHexColor color = true ∧ color.length ≤ VALIDATION_LIMITS.MAX_COLOR_LENGTH ∧
      (jGet j "updatedAt" = none ∨ ∃ u, jGet j "updatedAt" = some (Json.str u)) := by
  unfold validateActivity at h
  split at h
  · simp at h
  · rw [List.append_eq_nil, List.append_eq_nil, List.append_eq_nil,
      List.append_eq_nil] at h
    obtain ⟨⟨⟨⟨hid, hname⟩, hcolor⟩, hcreated⟩, hupd⟩ := h
    cases hid2 : jGet j "id" with
    | none => rw [hid2] at hid; simp at hid
    | some v =>
      rw [hid2] at hid
      cases v with
      | str id =>
        cases hname2 : jGet j "name" with
        | none => rw [hname2] at hname; simp at hname
        | some v2 =>
          rw [hname2] at hname
          cases v2 with
          | str name =>
            cases hcolor2 : jGet j "color" with
            | none => rw [hcolor2] at hcolor; simp at hcolor
            | some v3 =>
              rw [hcolor2] at hcolor
              cases v3 with
              | str color =>
                cases hcreated2 : jGet j "createdAt" with
                | none => rw [hcreated2] at hcreated; simp at hcreated
                | some v4 =>
                  rw [hcreated2] at hcreated
                  cases v4 with
                  | str createdAt =>
                    refine ⟨id, name, color, createdAt, rfl, rfl, rfl, rfl, ?_⟩
                    obtain ⟨hpat, hidlen⟩ := validateId_nil (by simpa using hid)
                    simp only [List.append_eq_nil] at hname hcolor
                    obtain ⟨hname1, hname2⟩ := hname
                    obtain ⟨hcolor1, hcolor2⟩ := hcolor
                    refine ⟨hpat, hidlen, ?_, ?_, ?_, ?_⟩
                    · by_cases hl : name.length > VALIDATION_LIMITS.MAX_NAME_LENGTH
                      · rw [if_pos (by simp [hl])] at hname2
                        simp at hname2
                      · omega
                    · by_cases hc : isValidHexColor color = true
                      · exact hc
                      · rw [if_pos (by simp [hc])] at hcolor1
                        simp at hcolor1
                    · by_cases hl : color.length > VALIDATION_LIMITS.MAX_COLOR_LENGTH
                      · rw [if_pos (by simp [hl])] at hcolor2
                        simp at hcolor2
                      · omega
                    · cases hupd2 : jGet j "updatedAt" with
                      | none => exact Or.inl rfl
                      | some v5 =>
                        rw [hupd2] at hupd
                        cases v5 with
                        | str u => exact Or.inr ⟨u, rfl⟩
                        | null => simp at hupd
                        | bool b => simp at hupd
                        | num n => simp at hupd
                        | arr a => simp at hupd
                        | obj o => simp at hupd
                  | null => simp at hcreated
                  | bool b => simp at hcreated
                  | num n => simp at hcreated
                  | arr a => simp at hcreated
                  | obj o => simp at hcreated
              | null => simp at hcolor
              | bool b => simp at hcolor
              | num n => simp at hcolor
              | arr a => simp at hcolor
              | obj o => simp at hcolor
          | null => simp at hname
          | bool b => simp at hname
          | num n => simp at hname
          | arr a => simp at hname
          | obj o => simp at hname
      | null => simp at hid
      | bool b => simp at hid
      | num n => simp at hid
      | arr a => simp at hid
      | obj o => simp at hid

theorem validateActivityLog_nil_elim {j : Json} {i : Nat} (h : validateActivityLog j i = []) :
    ∃ id aid date createdAt c, jGet j "id" = some (Json.str id) ∧
      jGet j "activityId" = some (Json.str aid) ∧
      jGet j "date" = some (Json.str date) ∧
      jGet j "completed" = some (Json.bool c) ∧
      jGet j "createdAt" = some (Json.str createdAt) ∧
      validIdPatternB id = true ∧ validIdPatternB aid = true ∧
      isValidDateFormat date = true ∧
      (jGet j "notes" = none ∨ jGet j "notes" = some Json.null ∨
        ∃ s, jGet j "notes" = some (Json.str s) ∧
          s.length ≤ VALIDATION_LIMITS.MAX_NOTES_LENGTH) := by
  unfold validateActivityLog at h
  split at h
  · simp at h
  · rw [List.append_eq_nil, List.append_eq_nil, List.append_eq_nil,
      List.append_eq_nil, List.append_eq_nil] at h
    obtain ⟨⟨⟨⟨⟨hid, haid⟩, hdate⟩, hcomp⟩, hnotes⟩, hcreated⟩ := h
    cases hid2 : jGet j "id" with
    | none => rw [hid2] at hid; simp at hid
    | some v =>
      rw [hid2] at hid
      cases v with
      | str id =>
        cases haid2 : jGet j "activityId" with
        | none => rw [haid2] at haid; simp at haid
        | some v2 =>
          rw [haid2] at haid
          cases v2 with
          | str aid =>
            cases hdate2 : jGet j "date" with
            | none => rw [hdate2] at hdate; simp at hdate
            | some v3 =>
              rw [hdate2] at hdate
              cases v3 with
              | str date =>
                cases hcomp2 : jGet j "completed" with
                | none => rw [hcomp2] at hcomp; simp at hcomp
                | some v4 =>
                  rw [hcomp2] at hcomp
                  cases v4 with
                  | bool c =>
                    cases hcreated2 : jGet j "createdAt" with
                    | none => rw [hcreated2] at hcreated; simp at hcreated
                    | some v5 =>
                      rw [hcreated2] at hcreated
                      cases v5 with
                      | str createdAt =>
                        refine ⟨id, aid, date, createdAt, c, rfl, rfl, rfl, rfl, rfl, ?_⟩
                        obtain ⟨hpat1, _⟩ := validateId_nil (by simpa using hid)
                        obtain ⟨hpat2, _⟩ := validateId_nil (by simpa using haid)
                        refine ⟨hpat1, hpat2, ?_, ?_⟩
                        · by_cases hd : isValidDateFormat date = true
                          · exact hd
                          · rw [show (match some (Json.str date) with
                              | some (Json.str s) => if (!isValidDateFormat s) = true then
                                  [⟨"logs[" ++ toString i ++ "]" ++ ".date",
                                    "Log at index " ++ toString i ++
                                    " has invalid date format. Must be YYYY-MM-DD.", some i⟩]
                                else []
                              | _ => [⟨"logs[" ++ toString i ++ "]" ++ ".date",
                                  "Log at index " ++ toString i ++
                                  " must have a valid string date.", some i⟩]) =
                              (if (!isValidDateFormat date) = true then
                                [(⟨"logs[" ++ toString i ++ "]" ++ ".date",
                                  "Log at index " ++ toString i ++
                                  " has invalid date format. Must be YYYY-MM-DD.", some i⟩ :
                                  ValidationError)]
                              else []) from rfl] at hdate
                            rw [if_pos (by simp [hd])] at hdate
                            simp at hdate
                        · cases hnotes2 : jGet j "notes" with
                          | none => exact Or.inl rfl
                          | some v6 =>
                            rw [hnotes2] at hnotes
                            cases v6 with
                            | null => exact Or.inr (Or.inl rfl)
                            | str s =>
                              refine Or.inr (Or.inr ⟨s, rfl, ?_⟩)
                              by_cases hl : s.length > VALIDATION_LIMITS.MAX_NOTES_LENGTH
                              · rw [show (match some (Json.str s) with
                                  | none => ([] : List ValidationError)
                                  | some Json.null => []
                                  | some (Json.str s2) =>
                                    if s2.length > VALIDATION_LIMITS.MAX_NOTES_LENGTH then
                                      [⟨"logs[" ++ toString i ++ "]" ++ ".notes",
                                        "Log at index " ++ toString i ++
                                        " notes exceeds maximum length of " ++
                                        toString VALIDATION_LIMITS.MAX_NOTES_LENGTH ++
                                        " characters.", some i⟩]
                                    else []
                                  | some _ => [⟨"logs[" ++ toString i ++ "]" ++ ".notes",
                                      "Log at index " ++ toString i ++
                                      " notes must be a string if provided.", some i⟩]) =
                                  (if s.length > VALIDATION_LIMITS.MAX_NOTES_LENGTH then
                                    [(⟨"logs[" ++ toString i ++ "]" ++ ".notes",
                                      "Log at index " ++ toString i ++
                                      " notes exceeds maximum length of " ++
                                      toString VALIDATION_LIMITS.MAX_NOTES_LENGTH ++
                                      " characters.", some i⟩ : ValidationError)]
                                  else []) from rfl] at hnotes
                                rw [if_pos hl] at hnotes
                                simp at hnotes
                              · omega
                            | bool b => simp at hnotes
                            | num n => simp at hnotes
                            | arr a => simp at hnotes
                            | obj o => simp at hnotes
                      | null => simp at hcreated
                      | bool b => simp at hcreated
                      | num n => simp at hcreated
                      | arr a => simp at hcreated
                      | obj o => simp at hcreated
                  | null => simp at hcomp
                  | str s => simp at hcomp
                  | num n => simp at hcomp
                  | arr a => simp at hcomp
                  | obj o => simp at hcomp
              | null => simp at hdate
              | bool b => simp at hdate
              | num n => simp at hdate
              | arr a => simp at hdate
              | obj o => simp at hdate
          | null => simp at haid
          | bool b => simp at haid
          | num n => simp at haid
          | arr a => simp at haid
          | obj o => simp at haid
      | null => simp at hid
      | bool b => simp at hid
      | num n => simp at hid
      | arr a => simp at hid
      | obj o => simp at hid

theorem readActivity_of_nil {j : Json} {i : Nat} (h : validateActivity j i = []) :
    ∃ a, readActivity j = some a := by
  obtain ⟨id, name, color, createdAt, hid, hname, hcolor, hcreated, _⟩ :=
    validateActivity_nil_elim h
  refine ⟨⟨id, name, color, createdAt,
    match jGet j "updatedAt" with
    | some (Json.str u) => some u
    | _ => none⟩, ?_⟩
  unfold readActivity
  rw [hid, hname, hcolor, hcreated]

theorem readActivityLog_of_nil {j : Json} {i : Nat} (h : validateActivityLog j i = []) :
    ∃ l, readActivityLog j = some l := by
  obtain ⟨id, aid, date, createdAt, c, hid, haid, hdate, hcomp, hcreated, _, _, _, hnotes⟩ :=
    validateActivityLog_nil_elim h
  unfold readActivityLog
  rw [hid, haid, hdate, hcomp, hcreated]
  rcases hnotes with hn | hn | ⟨s, hn, _⟩
  · rw [hn]
    exact ⟨_, rfl⟩
  · rw [hn]
    exact ⟨_, rfl⟩
  · rw [hn]
    exact ⟨_, rfl⟩

theorem vaf_nil_mem {l : List Json} : ∀ {i : Nat}, validateActivitiesFrom l i = [] →
    ∀ a ∈ l, ∃ idx, validateActivity a idx = [] := by
  induction l with
  | nil => intro i _ a ha; simp at ha
  | cons x l ih =>
    intro i h a ha
    unfold validateActivitiesFrom at h
    rw [List.append_eq_nil] at h
    rcases List.mem_cons.mp ha with ha | ha
    · exact ⟨i, ha ▸ h.1⟩
    · exact ih h.2 a ha

theorem vlf_nil_mem {l : List Json} : ∀ {i : Nat}, validateLogsFrom l i = [] →
    ∀ a ∈ l, ∃ idx, validateActivityLog a idx = [] := by
  induction l with
  | nil => intro i _ a ha; simp at ha
  | cons x l ih =>
    intro i h a ha
    unfold validateLogsFrom at h
    rw [List.append_eq_nil] at h
    rcases List.mem_cons.mp ha with ha | ha
    · exact ⟨i, ha ▸ h.1⟩
    · exact ih h.2 a ha

theorem readAll_of_all {α : Type} {f : Json → Option α} {l : List Json}
    (h : ∀ a ∈ l, ∃ x, f a = some x) : ∃ xs, readAll f l = some xs := by
  induction l with
  | nil => exact ⟨[], rfl⟩
  | cons a l ih =>
    obtain ⟨x, hx⟩ := h a (List.mem_cons_self a l)
    obtain ⟨xs, hxs⟩ := ih (fun b hb => h b (List.mem_cons_of_mem a hb))
    refine ⟨x :: xs, ?_⟩
    unfold readAll
    rw [hx, hxs]

theorem parse_some_eq (data : Json) : parseImportFileWithValidation (some data) =
    (if (validateImportDataWithErrors data).valid then
      match jGet data "activities", jGet data "logs" with
      | some (Json.arr acts), some (Json.arr logs) =>
        (match readAll readActivity acts, readAll readActivityLog logs with
         | some as2, some ls2 =>
           Except.ok ⟨true, [],
             some ⟨as2.map sanitizeActivity, ls2.map sanitizeActivityLog⟩⟩
         | _, _ => Except.error JsErr.typeError)
      | _, _ => Except.error JsErr.typeError
    else Except.ok (validateImportDataWithErrors data)) := rfl

theorem parse_total (parsed : Option Json) :
    ∃ r, parseImportFileWithValidation parsed = Except.ok r := by
  cases parsed with
  | none => exact ⟨_, rfl⟩
  | some data =>
    by_cases hv : (validateImportDataWithErrors data).valid = true
    · obtain ⟨hobj, acts, logs, hacts, hlogs, _, _, hvA, hvL⟩ := validate_valid_elim hv
      obtain ⟨as2, has2⟩ := readAll_of_all (fun a ha =>
        (vaf_nil_mem hvA a ha).elim fun idx hidx => readActivity_of_nil hidx)
      obtain ⟨ls2, hls2⟩ := readAll_of_all (fun a ha =>
        (vlf_nil_mem hvL a ha).elim fun idx hidx => readActivityLog_of_nil hidx)
      refine ⟨⟨true, [], some ⟨as2.map sanitizeActivity, ls2.map sanitizeActivityLog⟩⟩, ?_⟩
      rw [parse_some_eq, if_pos hv, hacts, hlogs]
      simp only []
      rw [has2, hls2]
    · refine ⟨validateImportDataWithErrors data, ?_⟩
      rw [parse_some_eq, if_neg (by simpa using hv)]

theorem char_beq_false_of_toNat_ne {c w : Char} (h : c.toNat ≠ w.toNat) : (c == w) = false := by
  rw [beq_eq_false_iff_ne]
  intro he
  exact h (he ▸ rfl)

theorem char_decide_le_false_of_toNat_lt {a c : Char} (h : c.toNat < a.toNat) :
    decide (a ≤ c) = false := by
  rw [decide_eq_false_iff_not]
  intro hle
  rw [charLe_iff_toNat] at hle
  omega

theorem ascii_not_ws {c : Char} (h1 : 32 < c.toNat) (h2 : c.toNat < 160) :
    jsWhitespace c = false := by
  unfold jsWhitespace
  rw [char_beq_false_of_toNat_ne (w := ' ')
    (by have hw : (' ' : Char).toNat = 32 := by decide
        omega)]
  rw [char_beq_false_of_toNat_ne (w := '\t')
    (by have hw : ('\t' : Char).toNat = 9 := by decide
        omega)]
  rw [char_beq_false_of_toNat_ne (w := '\n')
    (by have hw : ('\n' : Char).toNat = 10 := by decide
        omega)]
  rw [char_beq_false_of_toNat_ne (w := '\r')
    (by have hw : ('\r' : Char).toNat = 13 := by decide
        omega)]
  rw [char_beq_false_of_toNat_ne (w := '\x0b')
    (by have hw : ('\x0b' : Char).toNat = 11 := by decide
        omega)]
  rw [char_beq_false_of_toNat_ne (w := '\x0c')
    (by have hw : ('\x0c' : Char).toNat = 12 := by decide
        omega)]
  rw [char_beq_false_of_toNat_ne (w := '\u00a0')
    (by have hw : ('\u00a0' : Char).toNat = 160 := by decide
        omega)]
  rw [char_beq_false_of_toNat_ne (w := '\u1680')
    (by have hw : ('\u1680' : Char).toNat = 5760 := by decide
        omega)]
  rw [char_beq_false_of_toNat_ne (w := '\u2028')
    (by have hw : ('\u2028' : Char).toNat = 8232 := by decide
        omega)]
  rw [char_beq_false_of_toNat_ne (w := '\u2029')
    (by have hw : ('\u2029' : Char).toNat = 8233 := by decide
        omega)]
  rw [char_beq_false_of_toNat_ne (w := '\u202f')
    (by have hw : ('\u202f' : Char).toNat = 8239 := by decide
        omega)]
  rw [char_beq_false_of_toNat_ne (w := '\u205f')
    (by have hw : ('\u205f' : Char).toNat = 8287 := by decide
        omega)]
  rw [char_beq_false_of_toNat_ne (w := '\u3000')
    (by have hw : ('\u3000' : Char).toNat = 12288 := by decide
        omega)]
  rw [char_beq_false_of_toNat_ne (w := '\ufeff')
    (by have hw : ('\ufeff' : Char).toNat = 65279 := by decide
        omega)]
  rw [char_decide_le_false_of_toNat_lt (a := '\u2000')
    (by have hw : ('\u2000' : Char).toNat = 8192 := by decide
        omega)]
  simp

theorem isDigit_bounds {c : Char} (h : c.isDigit = true) : 48 ≤ c.toNat ∧ c.toNat ≤ 57 := by
  simp [Char.isDigit] at h
  exact h

theorem idChar_bounds {c : Char} (h : isIdChar c = true) : 32 < c.toNat ∧ c.toNat < 160 := by
  unfold isIdChar at h
  simp only [Bool.or_eq_true, Bool.and_eq_true, decide_eq_true_eq, beq_iff_eq] at h
  have ha : ('a' : Char).toNat = 97 := by decide
  have hz : ('z' : Char).toNat = 122 := by decide
  have hA : ('A' : Char).toNat = 65 := by decide
  have hZ : ('Z' : Char).toNat = 90 := by decide
  have h0 : ('0' : Char).toNat = 48 := by decide
  have h9 : ('9' : Char).toNat = 57 := by decide
  have hu : ('_' : Char).toNat = 95 := by decide
  have hh : ('-' : Char).toNat = 45 := by decide
  rcases h with (((⟨hl, hr⟩ | ⟨hl, hr⟩) | ⟨hl, hr⟩) | h) | h
  · rw [charLe_iff_toNat] at hl hr
    omega
  · rw [charLe_iff_toNat] at hl hr
    omega
  · rw [charLe_iff_toNat] at hl hr
    omega
  · rw [h]
    omega
  · rw [h]
    omega

theorem hexChar_bounds {c : Char} (h : isHexDigitB c = true) : 32 < c.toNat ∧ c.toNat < 160 := by
  unfold isHexDigitB at h
  simp only [Bool.or_eq_true, Bool.and_eq_true, decide_eq_true_eq] at h
  have h0 : ('0' : Char).toNat = 48 := by decide
  have h9 : ('9' : Char).toNat = 57 := by decide
  have ha : ('a' : Char).toNat = 97 := by decide
  have hf : ('f' : Char).toNat = 102 := by decide
  have hA : ('A' : Char).toNat = 65 := by decide
  have hF : ('F' : Char).toNat = 70 := by decide
  rcases h with (⟨hl, hr⟩ | ⟨hl, hr⟩) | ⟨hl, hr⟩ <;> rw [charLe_iff_toNat] at hl hr <;> omega

theorem string_mk_eta (s : String) : String.mk s.data = s := by
  cases s
  rfl

theorem jsTrim_of_all_safe {s : String} (h : ∀ c ∈ s.data, 32 < c.toNat ∧ c.toNat < 160) :
    jsTrim s = s := by
  unfold jsTrim
  rw [jsTrimL_of_no_ws (fun c hc => ascii_not_ws (h c hc).1 (h c hc).2)]

theorem jsTrim_of_idPattern {s : String} (h : validIdPatternB s = true) : jsTrim s = s := by
  unfold validIdPatternB at h
  rw [Bool.and_eq_true] at h
  exact jsTrim_of_all_safe (fun c hc => idChar_bounds (List.all_eq_true.mp h.2 c hc))

theorem hexColor_chars {s : String} (h : isValidHexColor s = true) :
    (∀ c ∈ s.data, 32 < c.toNat ∧ c.toNat < 160) ∧ s.length ≤ 7 := by
  unfold isValidHexColor at h
  split at h
  case h_1 rest heq =>
    rw [Bool.and_eq_true] at h
    constructor
    · intro c hc
      rw [heq] at hc
      rcases List.mem_cons.mp hc with hc | hc
      · subst hc
        have : ('#' : Char).toNat = 35 := by decide
        omega
      · exact hexChar_bounds (List.all_eq_true.mp h.2 c hc)
    · show s.data.length ≤ 7
      rw [heq]
      rcases (by simpa using h.1 : rest.length = 6 ∨ rest.length = 3) with h6 | h3
      · simp [h6]
      · simp [h3]
  case h_2 => simp at h

theorem jsTrim_of_hexColor {s : String} (h : isValidHexColor s = true) : jsTrim s = s :=
  jsTrim_of_all_safe (hexColor_chars h).1

theorem parseYMD_shape {l : List Char} {y m d : Int} (h : parseYMD l = some (y, m, d)) :
    ∀ c ∈ l, 32 < c.toNat ∧ c.toNat < 160 := by
  unfold parseYMD at h
  split at h
  case h_1 y1 y2 y3 y4 m1 m2 d1 d2 =>
    split at h
    case isTrue hd =>
      simp only [List.all_cons, List.all_nil, Bool.and_eq_true, Bool.and_true] at hd
      intro c hc
      have hdash : ('-' : Char).toNat = 45 := by decide
      simp only [List.mem_cons, List.not_mem_nil, or_false] at hc
      rcases hc with rfl | rfl | rfl | rfl | rfl | rfl | rfl | rfl | rfl | rfl
      · have := isDigit_bounds hd.1; omega
      · have := isDigit_bounds hd.2.1; omega
      · have := isDigit_bounds hd.2.2.1; omega
      · have := isDigit_bounds hd.2.2.2.1; omega
      · omega
      · have := isDigit_bounds hd.2.2.2.2.1; omega
      · have := isDigit_bounds hd.2.2.2.2.2.1; omega
      · omega
      · have := isDigit_bounds hd.2.2.2.2.2.2.1; omega
      · have := isDigit_bounds hd.2.2.2.2.2.2.2; omega
    case isFalse => simp at h
  case h_2 => simp at h

theorem jsTrim_of_dateFormat {s : String} (h : isValidDateFormat s = true) : jsTrim s = s := by
  unfold isValidDateFormat at h
  cases hp : parseYMD s.data with
  | none => rw [hp] at h; simp at h
  | some v =>
    obtain ⟨y, m, d⟩ := v
    exact jsTrim_of_all_safe (parseYMD_shape hp)

theorem strTake_of_le {n : Nat} {s : String} (h : s.length ≤ n) : strTake n s = s := by
  unfold strTake
  rw [List.take_of_length_le h, string_mk_eta]

theorem readActivity_toJson (a : Activity) : readActivity (activityToJson a) = some a := by
  cases a with
  | mk id name color createdAt updatedAt =>
    cases updatedAt with
    | none => rfl
    | some u => rfl

theorem readActivityLog_toJson (l : ActivityLog) :
    readActivityLog (logToJson l) = some l := by
  cases l with
  | mk id aid date completed notes createdAt =>
    cases notes with
    | none => rfl
    | some s => rfl

theorem readAll_map {α : Type} {f : Json → Option α} {g : α → Json} {l : List α}
    (h : ∀ x ∈ l, f (g x) = some x) : readAll f (l.map g) = some l := by
  induction l with
  | nil => rfl
  | cons a l ih =>
    show readAll f (g a :: l.map g) = some (a :: l)
    unfold readAll
    rw [h a (List.mem_cons_self a l), ih (fun x hx => h x (List.mem_cons_of_mem a hx))]

theorem map_id_of {α : Type} {f : α → α} {l : List α} (h : ∀ x ∈ l, f x = x) :
    l.map f = l := by
  induction l with
  | nil => rfl
  | cons a l ih =>
    show f a :: l.map f = a :: l
    rw [h a (List.mem_cons_self a l), ih (fun x hx => h x (List.mem_cons_of_mem a hx))]

theorem sanitizeActivity_fix {a : Activity} (hid : validIdPatternB a.id = true)
    (hname : sanitizeString a.name = a.name)
    (hnlen : a.name.length ≤ VALIDATION_LIMITS.MAX_NAME_LENGTH)
    (hcolor : isValidHexColor a.color = true) : sanitizeActivity a = a := by
  have hclen : a.color.length ≤ VALIDATION_LIMITS.MAX_COLOR_LENGTH := by
    have := (hexColor_chars hcolor).2
    show a.color.length ≤ 20
    omega
  unfold sanitizeActivity
  rw [jsTrim_of_idPattern hid, hname, strTake_of_le hnlen, jsTrim_of_hexColor hcolor,
    strTake_of_le hclen]

theorem sanitizeActivityLog_fix {l : ActivityLog} (hid : validIdPatternB l.id = true)
    (haid : validIdPatternB l.activityId = true)
    (hdate : isValidDateFormat l.date = true)
    (hnotes : match l.notes with
      | none => True
      | some s => s ≠ "" ∧ sanitizeString s = s ∧
          s.length ≤ VALIDATION_LIMITS.MAX_NOTES_LENGTH) :
    sanitizeActivityLog l = l := by
  cases l with
  | mk id aid date completed notes createdAt =>
    unfold sanitizeActivityLog
    simp only [] at hid haid hdate hnotes ⊢
    rw [jsTrim_of_idPattern hid, jsTrim_of_idPattern haid, jsTrim_of_dateFormat hdate]
    cases notes with
    | none => rfl
    | some s =>
      obtain ⟨hne, hfix, hlen⟩ := hnotes
      simp only []
      rw [if_neg (by simp [hne]), hfix, strTake_of_le hlen]

theorem validate_eq_parts (j : Json) (acts logs : List Json) (hobj : isObjectLike j = true)
    (ha : jGet j "activities" = some (Json.arr acts))
    (hl : jGet j "logs" = some (Json.arr logs)) :
    validateImportDataWithErrors j =
      ⟨((if acts.length > VALIDATION_LIMITS.MAX_ACTIVITIES then
          [⟨"activities", tooManyActivitiesMessage acts.length, none⟩]
        else validateActivitiesFrom acts 0) ++
        (if logs.length > VALIDATION_LIMITS.MAX_LOGS then
          [⟨"logs", tooManyLogsMessage logs.length, none⟩]
        else validateLogsFrom logs 0)).isEmpty,
       (if acts.length > VALIDATION_LIMITS.MAX_ACTIVITIES then
          [⟨"activities", tooManyActivitiesMessage acts.length, none⟩]
        else validateActivitiesFrom acts 0) ++
        (if logs.length > VALIDATION_LIMITS.MAX_LOGS then
          [⟨"logs", tooManyLogsMessage logs.length, none⟩]
        else validateLogsFrom logs 0), none⟩ := by
  unfold validateImportDataWithErrors
  rw [if_neg (by simp [hobj])]
  rw [ha, hl]

theorem dim_ge_28 (y m : Int) : 28 ≤ daysInMonth y m := by
  unfold daysInMonth
  split_ifs <;> omega

theorem rollF_noop {y m d : Int} (h : ¬ d > daysInMonth y m) (f : Nat) :
    rollF f y m d = (y, m, d) := by
  cases f with
  | zero => rfl
  | succ f =>
    show rollF (f + 1) y m d = _
    simp only [rollF]
    rw [if_neg h]

theorem rollB_noop {y m d : Int} (h : ¬ d < 1) (f : Nat) :
    rollB f y m d = (y, m, d) := by
  cases f with
  | zero => rfl
  | succ f =>
    show rollB (f + 1) y m d = _
    simp only [rollB]
    rw [if_neg h]

theorem rollB_zero {f : Nat} (h2 : 2 ≤ f) (y m : Int) :
    rollB f y m 0 =
      (if m == 0 then (y - 1, 11, daysInMonth (y - 1) 11)
       else (y, m - 1, daysInMonth y (m - 1))) := by
  obtain ⟨g, rfl⟩ : ∃ g, f = g + 2 := ⟨f - 2, by omega⟩
  show rollB (g + 1 + 1) y m 0 = _
  simp only [rollB]
  rw [if_pos (by omega)]
  by_cases hm : (m == 0) = true
  · rw [if_pos hm, if_pos hm]
    rw [if_neg (by have := dim_ge_28 (y - 1) 11; omega)]
    norm_num
  · rw [if_neg hm, if_neg hm]
    rw [if_neg (by have := dim_ge_28 y (m - 1); omega)]
    norm_num

theorem rollF_m_range : ∀ (f : Nat) (y m d : Int), 0 ≤ m → m ≤ 11 →
    0 ≤ (rollF f y m d).2.1 ∧ (rollF f y m d).2.1 ≤ 11 := by
  intro f
  induction f with
  | zero => intro y m d h1 h2; exact ⟨h1, h2⟩
  | succ f ih =>
    intro y m d h1 h2
    show (rollF (f + 1) y m d).2.1 ≥ 0 ∧ (rollF (f + 1) y m d).2.1 ≤ 11
    simp only [rollF]
    by_cases hd : d > daysInMonth y m
    · rw [if_pos hd]
      by_cases hm : (m == 11) = true
      · rw [if_pos hm]
        exact ih (y + 1) 0 _ (by omega) (by omega)
      · rw [if_neg hm]
        have : m ≠ 11 := by simpa using hm
        exact ih y (m + 1) _ (by omega) (by omega)
    · rw [if_neg hd]
      exact ⟨h1, h2⟩

theorem rollF_ge : ∀ (f : Nat) (y m d : Int),
    y < (rollF f y m d).1 ∨ ((rollF f y m d).1 = y ∧ m ≤ (rollF f y m d).2.1) := by
  intro f
  induction f with
  | zero => intro y m d; exact Or.inr ⟨rfl, le_refl m⟩
  | succ f ih =>
    intro y m d
    show y < (rollF (f + 1) y m d).1 ∨ ((rollF (f + 1) y m d).1 = y ∧ m ≤ (rollF (f + 1) y m d).2.1)
    simp only [rollF]
    by_cases hd : d > daysInMonth y m
    · rw [if_pos hd]
      by_cases hm : (m == 11) = true
      · rw [if_pos hm]
        rcases ih (y + 1) 0 (d - daysInMonth y m) with h | ⟨h, _⟩
        · exact Or.inl (by omega)
        · exact Or.inl (by omega)
      · rw [if_neg hm]
        rcases ih y (m + 1) (d - daysInMonth y m) with h | ⟨h, h2⟩
        · exact Or.inl h
        · exact Or.inr ⟨h, by omega⟩
    · rw [if_neg hd]
      exact Or.inr ⟨rfl, le_refl m⟩

theorem rollF_strict {y m d : Int} (h : d > daysInMonth y m) (f : Nat) :
    y < (rollF (f + 1) y m d).1 ∨
      ((rollF (f + 1) y m d).1 = y ∧ m < (rollF (f + 1) y m d).2.1) := by
  show _ ∨ _
  simp only [rollF]
  rw [if_pos h]
  by_cases hm : (m == 11) = true
  · rw [if_pos hm]
    rcases rollF_ge f (y + 1) 0 (d - daysInMonth y m) with h2 | ⟨h2, _⟩
    · exact Or.inl (by omega)
    · exact Or.inl (by omega)
  · rw [if_neg hm]
    rcases rollF_ge f y (m + 1) (d - daysInMonth y m) with h2 | ⟨h2, h3⟩
    · exact Or.inl h2
    · exact Or.inr ⟨h2, by omega⟩

theorem rollF_y_ge : ∀ (f : Nat) (y m d : Int), y ≤ (rollF f y m d).1 := by
  intro f y m d
  rcases rollF_ge f y m d with h | ⟨h, _⟩
  · omega
  · omega

theorem parseYMD_bounds {l : List Char} {y m d : Int} (h : parseYMD l = some (y, m, d)) :
    0 ≤ y ∧ y ≤ 9999 ∧ 0 ≤ m ∧ m ≤ 99 ∧ 0 ≤ d ∧ d ≤ 99 := by
  unfold parseYMD at h
  split at h
  case h_1 y1 y2 y3 y4 m1 m2 d1 d2 =>
    split at h
    case isTrue hd =>
      simp only [List.all_cons, List.all_nil, Bool.and_eq_true, Bool.and_true] at hd
      simp only [Option.some.injEq, Prod.mk.injEq] at h
      obtain ⟨hy, hm, hdd⟩ := h
      have b1 := isDigit_bounds hd.1
      have b2 := isDigit_bounds hd.2.1
      have b3 := isDigit_bounds hd.2.2.1
      have b4 := isDigit_bounds hd.2.2.2.1
      have b5 := isDigit_bounds hd.2.2.2.2.1
      have b6 := isDigit_bounds hd.2.2.2.2.2.1
      have b7 := isDigit_bounds hd.2.2.2.2.2.2.1
      have b8 := isDigit_bounds hd.2.2.2.2.2.2.2
      unfold digitVal at hy hm hdd
      have h48 : ('0' : Char).toNat = 48 := by decide
      rw [h48] at hy hm hdd
      simp only [Int.ofNat_eq_natCast] at hy hm hdd
      omega
    case isFalse => simp at h
  case h_2 => simp at h

theorem jsMakeDate_good {y m d : Int} (hy : 100 ≤ y) (hm : 1 ≤ m) (hm2 : m ≤ 12)
    (hd : 1 ≤ d) (hd2 : d ≤ daysInMonth y (m - 1)) :
    jsMakeDate y (m - 1) d = (y, m - 1, d) := by
  unfold jsMakeDate yearAdj
  rw [if_neg (by omega)]
  rw [show (m - 1) / 12 = 0 by omega]
  rw [show (m - 1) % 12 = m - 1 by omega]
  rw [add_zero]
  rw [rollB_noop (by omega) 400]
  rw [show dayNormF (y, m - 1, d) = rollF 400 y (m - 1) d from rfl]
  exact rollF_noop (by omega) 400

theorem normFacts (Y M d : Int) (hM0 : 0 ≤ M) (hM1 : M ≤ 11) (hd0 : 0 ≤ d) :
    (0 ≤ (dayNormF (rollB 400 Y M d)).2.1 ∧ (dayNormF (rollB 400 Y M d)).2.1 ≤ 11) ∧
    Y - 1 ≤ (dayNormF (rollB 400 Y M d)).1 ∧
    (d = 0 → 28 ≤ (dayNormF (rollB 400 Y M d)).2.2) ∧
    (1 ≤ d → d ≤ daysInMonth Y M → dayNormF (rollB 400 Y M d) = (Y, M, d)) ∧
    (d > daysInMonth Y M →
      (Y < (dayNormF (rollB 400 Y M d)).1 ∨
        ((dayNormF (rollB 400 Y M d)).1 = Y ∧ M < (dayNormF (rollB 400 Y M d)).2.1))) := by
  by_cases hdz : d = 0
  · subst hdz
    rw [rollB_zero (by omega)]
    by_cases hz : (M == 0) = true
    · rw [if_pos hz]
      have hM : M = 0 := by simpa using hz
      have hdim := dim_ge_28 (Y - 1) 11
      unfold dayNormF
      rw [rollF_noop (by simp only []; omega) 400]
      refine ⟨⟨by norm_num, by norm_num⟩, by simp only []; omega, fun _ => by
        simp only []; omega, fun h1 _ => by omega, fun hgt => by
        have := dim_ge_28 Y M; omega⟩
    · rw [if_neg hz]
      have hM : M ≠ 0 := by simpa using hz
      have hdim := dim_ge_28 Y (M - 1)
      unfold dayNormF
      rw [rollF_noop (by simp only []; omega) 400]
      refine ⟨⟨by simp only []; omega, by simp only []; omega⟩, by simp only []; omega,
        fun _ => by simp only []; omega, fun h1 _ => by omega, fun hgt => by
        have := dim_ge_28 Y M; omega⟩
  · have hd1 : 1 ≤ d := by omega
    rw [rollB_noop (by omega) 400]
    rw [show dayNormF (Y, M, d) = rollF 400 Y M d from rfl]
    refine ⟨?_, ?_, ?_, ?_, ?_⟩
    · exact rollF_m_range 400 Y M d hM0 hM1
    · have := rollF_y_ge 400 Y M d
      omega
    · intro h0
      omega
    · intro _ hle
      exact rollF_noop (by omega) 400
    · intro hgt
      have := rollF_strict hgt 399
      have h400 : (399 : Nat) + 1 = 400 := rfl
      rw [h400] at this
      exact this

theorem isValidDateFormat_iff {s : String} {y m d : Int}
    (h : parseYMD s.data = some (y, m, d)) :
    isValidDateFormat s = true ↔ (100 ≤ y ∧ isRealCalendarDate y m d = true) := by
  obtain ⟨hy0, hy1, hm0, hm1, hd0, hd1⟩ := parseYMD_bounds h
  unfold isValidDateFormat
  rw [h]
  simp only [Bool.and_eq_true, beq_iff_eq]
  constructor
  · rintro ⟨⟨hr1, hr2⟩, hr3⟩
    have hmn0 : 0 ≤ (m - 1) % 12 := by omega
    have hmn1 : (m - 1) % 12 < 12 := by omega
    obtain ⟨hrange, hyge, hdzero, hnoroll, hstrict⟩ :=
      normFacts (yearAdj y + (m - 1) / 12) ((m - 1) % 12) d hmn0 (by omega) hd0
    have hjs : jsMakeDate y (m - 1) d =
        dayNormF (rollB 400 (yearAdj y + (m - 1) / 12) ((m - 1) % 12) d) := rfl
    rw [hjs] at hr1 hr2 hr3
    have hmrange : 1 ≤ m ∧ m ≤ 12 := by
      rw [hr2] at hrange
      omega
    have hemod : (m - 1) % 12 = m - 1 := by omega
    have hediv : (m - 1) / 12 = 0 := by omega
    rw [hemod, hediv, add_zero] at hrange hyge hdzero hnoroll hstrict hr1 hr2 hr3
    have hy100 : 100 ≤ y := by
      by_contra hlt
      have hadj : yearAdj y = y + 1900 := by
        unfold yearAdj
        rw [if_pos (by omega)]
      rw [hadj] at hyge hr1
      omega
    have hadj : yearAdj y = y := by
      unfold yearAdj
      rw [if_neg (by omega)]
    rw [hadj] at hyge hdzero hnoroll hstrict hr1 hr2 hr3
    have hdge1 : 1 ≤ d := by
      by_contra hdlt
      have hdz : d = 0 := by omega
      have := hdzero hdz
      omega
    have hdle : d ≤ daysInMonth y (m - 1) := by
      by_contra hgt
      rcases hstrict (by omega) with hcase | ⟨hcase1, hcase2⟩
      · omega
      · omega
    refine ⟨hy100, ?_⟩
    unfold isRealCalendarDate
    simp only [Bool.and_eq_true, decide_eq_true_eq]
    exact ⟨⟨⟨hmrange.1, hmrange.2⟩, hdge1⟩, hdle⟩
  · rintro ⟨hy100, hreal⟩
    unfold isRealCalendarDate at hreal
    simp only [Bool.and_eq_true, decide_eq_true_eq] at hreal
    obtain ⟨⟨⟨hm1', hm2'⟩, hd1'⟩, hd2'⟩ := hreal
    rw [jsMakeDate_good hy100 hm1' hm2' hd1' hd2']
    exact ⟨⟨rfl, rfl⟩, rfl⟩

theorem isValidDateFormat_none {s : String} (h : parseYMD s.data = none) :
    isValidDateFormat s = false := by
  unfold isValidDateFormat
  rw [h]

/-! ### Claim theorems -/

/-- C9: for every input value, the deprecated boolean validator
`validateImportData` returns `true` exactly when the detailed validator
`validateImportDataWithErrors` reports `valid = true`. -/
theorem c9_legacy_wrapper_equivalence (data : Json) :
    validateImportData data = true ↔ (validateImportDataWithErrors data).valid = true :=
  Iff.rfl

/-- C5 counterexample: the claim that `sanitizeString` is idempotent on
every string fails at `"&amp;amp;"`, which sanitizes to `"&amp;"` and
then further to `"&"` on a second pass. -/
theorem c5_counterexample :
    sanitizeString (sanitizeString "&amp;amp;") ≠ sanitizeString "&amp;amp;" := by
  decide

/-- C5 (amended): `sanitizeString` is idempotent on every string whose
sanitized form contains no residual decodable entity — no occurrence of
`&amp;`, `&quot;` or `&#x27;`.  (The original claim, idempotence on all
strings, fails because those three entities are decoded without being
re-encoded, so a string like `"&amp;amp;"` whose first pass leaves a
fresh `&amp;` in the output keeps shrinking.) -/
theorem c5_sanitizer_idempotence (s : String)
    (h1 : strIncludes (sanitizeString s) "&amp;" = false)
    (h2 : strIncludes (sanitizeString s) "&quot;" = false)
    (h3 : strIncludes (sanitizeString s) "&#x27;" = false) :
    sanitizeString (sanitizeString s) = sanitizeString s := by
  unfold strIncludes at h1 h2 h3
  rw [sanitizeString_data] at h1 h2 h3
  rw [show ("&amp;" : String).data = entAmp from rfl] at h1
  rw [show ("&quot;" : String).data = entQuot from rfl] at h2
  rw [show ("&#x27;" : String).data = entApos from rfl] at h3
  have hamp := (subSegB_eq_false_iff _ _).mp h1
  have hquot := (subSegB_eq_false_iff _ _).mp h2
  have hapos := (subSegB_eq_false_iff _ _).mp h3
  obtain ⟨hlt, hgt⟩ := sanitizeL_no_angle s.data
  have hfix : sanitizeL (sanitizeL s.data) = sanitizeL s.data :=
    sanitizeL_fix hlt hgt (sanitizeL_trimmed s.data) hamp hquot hapos
  have hstep : sanitizeString (sanitizeString s) =
      String.mk (sanitizeL (sanitizeL s.data)) := by
    unfold sanitizeString
    rw [mk_data]
  rw [hstep, hfix]
  rfl

/-- C5 witness: the amended idempotence applied to the concrete string
`"x<y"`, whose sanitized form `"x&lt;y"` carries no residual entity. -/
theorem c5_witness : sanitizeString (sanitizeString "x<y") = sanitizeString "x<y" :=
  c5_sanitizer_idempotence "x<y" (by decide) (by decide) (by decide)

/-- C7: the import parser is total — for every parse outcome it returns
a `ValidationResult` rather than escaping with a runtime error — and on
a JSON syntax failure it returns `valid = false` with exactly one error,
whose field is `"file"`, performing no structural validation. -/
theorem c7_parse_failure_semantics :
    (∀ parsed : Option Json, ∃ r, parseImportFileWithValidation parsed = Except.ok r) ∧
    parseImportFileWithValidation none =
      Except.ok ⟨false, [⟨"file", "Invalid JSON format. The file could not be parsed.", none⟩],
        none⟩ :=
  ⟨parse_total, rfl⟩

theorem parse_ok_sanitized {j : Json} {r : ValidationResult} {dset : DataSet}
    (h : parseImportFileWithValidation (some j) = Except.ok r)
    (hs : r.sanitizedData = some dset) :
    ∃ (as2 : List Activity) (ls2 : List ActivityLog),
      dset = ⟨as2.map sanitizeActivity, ls2.map sanitizeActivityLog⟩ := by
  rw [parse_some_eq] at h
  by_cases hv : (validateImportDataWithErrors j).valid = true
  · rw [if_pos hv] at h
    cases hacts : jGet j "activities" with
    | none =>
      rw [hacts] at h
      simp at h
    | some v =>
      rw [hacts] at h
      cases v with
      | arr acts =>
        cases hlogs : jGet j "logs" with
        | none =>
          rw [hlogs] at h
          simp at h
        | some w =>
          rw [hlogs] at h
          cases w with
          | arr logs =>
            simp only [] at h
            cases hr1 : readAll readActivity acts with
            | none => rw [hr1] at h; simp at h
            | some as2 =>
              cases hr2 : readAll readActivityLog logs with
              | none => rw [hr1, hr2] at h; simp at h
              | some ls2 =>
                rw [hr1, hr2] at h
                simp only [Except.ok.injEq] at h
                rw [← h] at hs
                simp only [Option.some.injEq] at hs
                exact ⟨as2, ls2, hs.symm⟩
          | null => simp at h
          | bool b => simp at h
          | num n => simp at h
          | str s2 => simp at h
          | obj o => simp at h
      | null => simp at h
      | bool b => simp at h
      | num n => simp at h
      | str s2 => simp at h
      | obj o => simp at h
  · rw [if_neg (by simpa using hv)] at h
    simp only [Except.ok.injEq] at h
    rw [← h] at hs
    rw [validateResult_sanitizedData_none] at hs
    simp at hs

/-- C10: sanitization leaves no raw angle bracket — for every string the
sanitized form contains neither `<` nor `>`, and consequently in the
`sanitizedData` of a successful import every activity name and every
present log notes value is free of raw angle brackets. -/
theorem c10_no_raw_angle_brackets :
    (∀ s : String, '<' ∉ (sanitizeString s).data ∧ '>' ∉ (sanitizeString s).data) ∧
    (∀ (j : Json) (r : ValidationResult) (dset : DataSet),
      parseImportFileWithValidation (some j) = Except.ok r →
      r.sanitizedData = some dset →
      (∀ a ∈ dset.activities, '<' ∉ a.name.data ∧ '>' ∉ a.name.data) ∧
      (∀ l ∈ dset.logs, ∀ s, l.notes = some s → '<' ∉ s.data ∧ '>' ∉ s.data)) := by
  constructor
  · exact sanitizeString_no_angle
  · intro j r dset h hs
    obtain ⟨as2, ls2, rfl⟩ := parse_ok_sanitized h hs
    constructor
    · intro a ha
      rcases List.mem_map.mp ha with ⟨x, _, rfl⟩
      have hn := sanitizeString_no_angle x.name
      constructor
      · intro hmem
        exact hn.1 (List.mem_of_mem_take (by
          simpa [sanitizeActivity, strTake] using hmem))
      · intro hmem
        exact hn.2 (List.mem_of_mem_take (by
          simpa [sanitizeActivity, strTake] using hmem))
    · intro l hl s hsome
      rcases List.mem_map.mp hl with ⟨x, _, rfl⟩
      cases hx : x.notes with
      | none =>
        exfalso
        simp [sanitizeActivityLog, hx] at hsome
      | some s0 =>
        by_cases hz : (s0 == "") = true
        · exfalso
          simp [sanitizeActivityLog, hx, hz] at hsome
        · have hsval : s = strTake VALIDATION_LIMITS.MAX_NOTES_LENGTH (sanitizeString s0) := by
            simp [sanitizeActivityLog, hx] at hsome
            exact hsome.2.symm
          have hn := sanitizeString_no_angle s0
          subst hsval
          constructor
          · intro hmem
            exact hn.1 (List.mem_of_mem_take (by simpa [strTake] using hmem))
          · intro hmem
            exact hn.2 (List.mem_of_mem_take (by simpa [strTake] using hmem))

/-- C10 witness: the angle-bracket guarantee instantiated on a concrete
successful import of one activity and one log. -/
theorem c10_witness :
    (∀ a ∈ (DataSet.mk [sampleActivity] [sampleLog]).activities,
      '<' ∉ a.name.data ∧ '>' ∉ a.name.data) ∧
    (∀ l ∈ (DataSet.mk [sampleActivity] [sampleLog]).logs, ∀ s, l.notes = some s →
      '<' ∉ s.data ∧ '>' ∉ s.data) :=
  c10_no_raw_angle_brackets.2
    (exportJson [sampleActivity] [sampleLog] "2024-01-15T10:00:00.000Z")
    ⟨true, [], some ⟨[sampleActivity], [sampleLog]⟩⟩
    ⟨[sampleActivity], [sampleLog]⟩ (by rfl) (by rfl)

/-- C6 counterexample: the claim that the merged activities array never
contains two elements sharing an id fails when the imported array itself
repeats an id — merging `[a, a]` into an empty store keeps both copies. -/
theorem c6_counterexample :
    ¬ ((mergeData [] [] [sampleActivity, sampleActivity] []).activities.map
        (fun a => a.id)).Nodup := by
  decide

/-- C6 (amended): `mergeData` returns every existing entity unchanged,
first and in original order, followed by exactly the imported entities
whose id is not among the existing ids, in the imported order; and
whenever the existing and the imported arrays each carry pairwise
distinct ids, the result carries pairwise distinct ids.  (The original
claim asserted the distinctness unconditionally, which fails when an
input array itself repeats an id.) -/
theorem c6_merge_dedup (ea : List Activity) (el : List ActivityLog)
    (ia : List Activity) (il : List ActivityLog) :
    (mergeData ea el ia il).activities =
      ea ++ ia.filter (fun a => !((ea.map (fun x => x.id)).contains a.id)) ∧
    (mergeData ea el ia il).logs =
      el ++ il.filter (fun l => !((el.map (fun x => x.id)).contains l.id)) ∧
    ((ea.map (fun a => a.id)).Nodup → (ia.map (fun a => a.id)).Nodup →
      ((mergeData ea el ia il).activities.map (fun a => a.id)).Nodup) ∧
    ((el.map (fun l => l.id)).Nodup → (il.map (fun l => l.id)).Nodup →
      ((mergeData ea el ia il).logs.map (fun l => l.id)).Nodup) := by
  refine ⟨rfl, rfl, ?_, ?_⟩
  · intro hea hia
    show ((ea ++ ia.filter (fun a => !((ea.map (fun x => x.id)).contains a.id))).map
      (fun a => a.id)).Nodup
    rw [List.map_append, List.nodup_append]
    refine ⟨hea, ?_, ?_⟩
    · exact hia.sublist (List.Sublist.map _ (List.filter_sublist ia))
    · intro x hx hx2
      rcases List.mem_map.mp hx2 with ⟨a, ha, rfl⟩
      have := List.of_mem_filter ha
      rw [Bool.not_eq_true', ← Bool.not_eq_true] at this
      exact this (List.elem_eq_true_of_mem hx)
  · intro hel hil
    show ((el ++ il.filter (fun l => !((el.map (fun x => x.id)).contains l.id))).map
      (fun l => l.id)).Nodup
    rw [List.map_append, List.nodup_append]
    refine ⟨hel, ?_, ?_⟩
    · exact hil.sublist (List.Sublist.map _ (List.filter_sublist il))
    · intro x hx hx2
      rcases List.mem_map.mp hx2 with ⟨l, hl, rfl⟩
      have := List.of_mem_filter hl
      rw [Bool.not_eq_true', ← Bool.not_eq_true] at this
      exact this (List.elem_eq_true_of_mem hx)

/-- C6 witness: the merge guarantees applied to concrete disjoint
stores. -/
theorem c6_witness :
    ((mergeData [sampleActivity] [sampleLog] [noUpdatedAtActivity] []).activities.map
      (fun a => a.id)).Nodup ∧
    ((mergeData [sampleActivity] [sampleLog] [noUpdatedAtActivity] []).logs.map
      (fun l => l.id)).Nodup :=
  ⟨(c6_merge_dedup [sampleActivity] [sampleLog] [noUpdatedAtActivity] []).2.2.1
      (by decide) (by decide),
   (c6_merge_dedup [sampleActivity] [sampleLog] [noUpdatedAtActivity] []).2.2.2
      (by decide) (by decide)⟩

/-- C8 counterexample: exporting an activity whose optional `updatedAt`
is absent makes `exportToCSV` throw — `escapeCSV` is called on
`undefined` — so export is not failure-free on every well-typed data
set that the import pipeline itself can produce. -/
theorem c8_counterexample :
    exportToCSV [noUpdatedAtActivity] [] = Except.error JsErr.typeError := rfl

/-- C8 (amended): for every data set in which each activity carries an
`updatedAt` value, `exportToCSV` succeeds and returns exactly the
`# Activities` header block, one escaped row per activity in order, a
blank separator line, the `# Logs` header block, and one escaped row
per log in order, all joined with newlines.  Unconditionally the claim
is false: an activity with absent `updatedAt` makes `exportToCSV`
throw a `TypeError` from `escapeCSV(undefined)`. -/
theorem c8_export_cannot_fail (activities : List Activity) (logs : List ActivityLog)
    (h : ∀ a ∈ activities, a.updatedAt ≠ none) :
    exportToCSV activities logs = Except.ok (String.intercalate "\n"
      (["# Activities", "id,name,color,createdAt,updatedAt"] ++
       activities.map (fun a => escapeCSV a.id ++ "," ++ escapeCSV a.name ++ "," ++
         escapeCSV a.color ++ "," ++ escapeCSV a.createdAt ++ "," ++
         escapeCSV (a.updatedAt.getD "")) ++
       [""] ++ ["# Logs", "id,activityId,date,completed,notes,createdAt"] ++
       logs.map logCSVRow)) := by
  have hrows : activities.mapM activityCSVRow =
      Except.ok (activities.map (fun a => escapeCSV a.id ++ "," ++ escapeCSV a.name ++ "," ++
        escapeCSV a.color ++ "," ++ escapeCSV a.createdAt ++ "," ++
        escapeCSV (a.updatedAt.getD ""))) := by
    induction activities with
    | nil => rfl
    | cons a l ih =>
      have hrow : activityCSVRow a = Except.ok (escapeCSV a.id ++ "," ++ escapeCSV a.name ++
          "," ++ escapeCSV a.color ++ "," ++ escapeCSV a.createdAt ++ "," ++
          escapeCSV (a.updatedAt.getD "")) := by
        cases hu : a.updatedAt with
        | none => exact absurd hu (h a (List.mem_cons_self a l))
        | some u =>
          unfold activityCSVRow
          rw [hu]
          rfl
      rw [List.mapM_cons, hrow, ih (fun x hx => h x (List.mem_cons_of_mem a hx))]
      rfl
  unfold exportToCSV
  rw [show (do
    let actRows ← activities.mapM activityCSVRow
    pure (String.intercalate "\n"
      (["# Activities", "id,name,color,createdAt,updatedAt"] ++ actRows ++
       [""] ++ ["# Logs", "id,activityId,date,completed,notes,createdAt"] ++
       logs.map logCSVRow)) : Except JsErr String) =
    (activities.mapM activityCSVRow).bind (fun actRows =>
      Except.ok (String.intercalate "\n"
        (["# Activities", "id,name,color,createdAt,updatedAt"] ++ actRows ++
         [""] ++ ["# Logs", "id,activityId,date,completed,notes,createdAt"] ++
         logs.map logCSVRow))) from rfl]
  rw [hrows]
  rfl

/-- C8 witness: the exact CSV output at a concrete data set containing
a log with absent notes. -/
theorem c8_witness :
    exportToCSV [sampleActivity]
      [⟨"log-2", "activity-1", "2024-01-16", false, none, "2024-01-16T10:00:00.000Z"⟩] =
      Except.ok (String.intercalate "\n"
        (["# Activities", "id,name,color,createdAt,updatedAt"] ++
         [sampleActivity].map (fun a => escapeCSV a.id ++ "," ++ escapeCSV a.name ++ "," ++
           escapeCSV a.color ++ "," ++ escapeCSV a.createdAt ++ "," ++
           escapeCSV (a.updatedAt.getD "")) ++
         [""] ++ ["# Logs", "id,activityId,date,completed,notes,createdAt"] ++
         ([⟨"log-2", "activity-1", "2024-01-16", false, none,
            "2024-01-16T10:00:00.000Z"⟩] : List ActivityLog).map logCSVRow)) :=
  c8_export_cannot_fail [sampleActivity]
    [⟨"log-2", "activity-1", "2024-01-16", false, none, "2024-01-16T10:00:00.000Z"⟩]
    (by decide)

/-- C2: volume boundaries — a bundle of exactly 10000 valid activities
validates, 10001 activities fail with a message containing "Too many
activities"; exactly 100000 valid logs validate, 100001 fail with a
message containing "Too many log entries". -/
theorem c2_volume_boundary :
    (validateImportDataWithErrors
      (mkBundle (List.replicate 10000 (activityToJson sampleActivity)) [])).valid = true ∧
    ((validateImportDataWithErrors
      (mkBundle (List.replicate 10001 (activityToJson sampleActivity)) [])).valid = false ∧
      ∃ e ∈ (validateImportDataWithErrors
        (mkBundle (List.replicate 10001 (activityToJson sampleActivity)) [])).errors,
        strIncludes e.message "Too many activities" = true) ∧
    (validateImportDataWithErrors
      (mkBundle [] (List.replicate 100000 (logToJson sampleLog)))).valid = true ∧
    ((validateImportDataWithErrors
      (mkBundle [] (List.replicate 100001 (logToJson sampleLog)))).valid = false ∧
      ∃ e ∈ (validateImportDataWithErrors
        (mkBundle [] (List.replicate 100001 (logToJson sampleLog)))).errors,
        strIncludes e.message "Too many log entries" = true) := by
  refine ⟨?_, ⟨?_, ?_⟩, ?_, ⟨?_, ?_⟩⟩
  · rw [validate_eq_parts (mkBundle (List.replicate 10000 (activityToJson sampleActivity)) [])
      (List.replicate 10000 (activityToJson sampleActivity)) [] rfl rfl rfl]
    simp only [List.length_replicate, List.length_nil]
    rw [if_neg (by decide), if_neg (by decide)]
    rw [vaf_replicate_sample]
    rfl
  · rw [validate_eq_parts (mkBundle (List.replicate 10001 (activityToJson sampleActivity)) [])
      (List.replicate 10001 (activityToJson sampleActivity)) [] rfl rfl rfl]
    simp only [List.length_replicate, List.length_nil]
    rw [if_pos (by decide), if_neg (by decide)]
    rfl
  · rw [validate_eq_parts (mkBundle (List.replicate 10001 (activityToJson sampleActivity)) [])
      (List.replicate 10001 (activityToJson sampleActivity)) [] rfl rfl rfl]
    simp only [List.length_replicate, List.length_nil]
    rw [if_pos (by decide), if_neg (by decide)]
    refine ⟨⟨"activities", tooManyActivitiesMessage 10001, none⟩, by simp, by decide⟩
  · rw [validate_eq_parts (mkBundle [] (List.replicate 100000 (logToJson sampleLog)))
      [] (List.replicate 100000 (logToJson sampleLog)) rfl rfl rfl]
    simp only [List.length_replicate, List.length_nil]
    rw [if_neg (by decide), if_neg (by decide)]
    rw [vlf_replicate_sample]
    rfl
  · rw [validate_eq_parts (mkBundle [] (List.replicate 100001 (logToJson sampleLog)))
      [] (List.replicate 100001 (logToJson sampleLog)) rfl rfl rfl]
    simp only [List.length_replicate, List.length_nil]
    rw [if_neg (by decide), if_pos (by decide)]
    rfl
  · rw [validate_eq_parts (mkBundle [] (List.replicate 100001 (logToJson sampleLog)))
      [] (List.replicate 100001 (logToJson sampleLog)) rfl rfl rfl]
    simp only [List.length_replicate, List.length_nil]
    rw [if_neg (by decide), if_pos (by decide)]
    refine ⟨⟨"logs", tooManyLogsMessage 100001, none⟩, by simp, by decide⟩

theorem acts_count_filter (msg : String) (L : List ValidationError)
    (hL : ∀ e ∈ L, (e.field == "activities") = false ∧
      strStartsWith e.field "activities[" = false) :
    (([(⟨"activities", msg, none⟩ : ValidationError)] ++ L).filter
        (fun e => e.field == "activities") = [⟨"activities", msg, none⟩]) ∧
    ∀ e ∈ ([(⟨"activities", msg, none⟩ : ValidationError)] ++ L),
      strStartsWith e.field "activities[" = false := by
  constructor
  · rw [List.filter_append]
    have h1 : List.filter (fun e => e.field == "activities")
        [(⟨"activities", msg, none⟩ : ValidationError)] =
        [⟨"activities", msg, none⟩] := by
      simp [List.filter]
    have h2 : List.filter (fun e => e.field == "activities") L = [] := by
      rw [List.filter_eq_nil_iff]
      intro e he
      simp [(hL e he).1]
    rw [h1, h2, List.append_nil]
  · intro e he
    rcases List.mem_append.mp he with h | h
    · rw [List.mem_singleton] at h
      rw [h]
      show strStartsWith "activities" "activities[" = false
      decide
    · exact (hL e h).2

theorem logs_count_filter (msg : String) (A : List ValidationError)
    (hA : ∀ e ∈ A, (e.field == "logs") = false ∧
      strStartsWith e.field "logs[" = false) :
    ((A ++ [(⟨"logs", msg, none⟩ : ValidationError)]).filter
        (fun e => e.field == "logs") = [⟨"logs", msg, none⟩]) ∧
    ∀ e ∈ (A ++ [(⟨"logs", msg, none⟩ : ValidationError)]),
      strStartsWith e.field "logs[" = false := by
  constructor
  · rw [List.filter_append]
    have h1 : List.filter (fun e => e.field == "logs") A = [] := by
      rw [List.filter_eq_nil_iff]
      intro e he
      simp [(hA e he).1]
    have h2 : List.filter (fun e => e.field == "logs")
        [(⟨"logs", msg, none⟩ : ValidationError)] =
        [⟨"logs", msg, none⟩] := by
      simp [List.filter]
    rw [h1, h2, List.nil_append]
  · intro e he
    rcases List.mem_append.mp he with h | h
    · exact (hA e h).2
    · rw [List.mem_singleton] at h
      rw [h]
      show strStartsWith "logs" "logs[" = false
      decide

theorem validate_errors_acts_over {j : Json} {acts : List Json}
    (hobj : isObjectLike j = true)
    (ha : jGet j "activities" = some (Json.arr acts))
    (hbig : acts.length > VALIDATION_LIMITS.MAX_ACTIVITIES) :
    (validateImportDataWithErrors j).errors =
      [(⟨"activities", tooManyActivitiesMessage acts.length, none⟩ : ValidationError)] ++
      (match jGet j "logs" with
       | some (Json.arr logs) =>
         if logs.length > VALIDATION_LIMITS.MAX_LOGS then
           [⟨"logs", tooManyLogsMessage logs.length, none⟩]
         else validateLogsFrom logs 0
       | _ => [⟨"logs", "Missing or invalid \"logs\" array.", none⟩]) := by
  unfold validateImportDataWithErrors
  rw [if_neg (by simp [hobj])]
  dsimp only
  rw [ha]
  dsimp only
  rw [if_pos hbig]

theorem validate_errors_logs_over {j : Json} {logs : List Json}
    (hobj : isObjectLike j = true)
    (hl : jGet j "logs" = some (Json.arr logs))
    (hbig : logs.length > VALIDATION_LIMITS.MAX_LOGS) :
    (validateImportDataWithErrors j).errors =
      (match jGet j "activities" with
       | some (Json.arr acts) =>
         if acts.length > VALIDATION_LIMITS.MAX_ACTIVITIES then
           [⟨"activities", tooManyActivitiesMessage acts.length, none⟩]
         else validateActivitiesFrom acts 0
       | _ => [⟨"activities", "Missing or invalid \"activities\" array.", none⟩]) ++
      [(⟨"logs", tooManyLogsMessage logs.length, none⟩ : ValidationError)] := by
  unfold validateImportDataWithErrors
  rw [if_neg (by simp [hobj])]
  dsimp only
  rw [hl]
  dsimp only
  rw [if_pos hbig]

/-- C3: oversized-array short-circuit.  For every object input whose
`activities` (resp. `logs`) field is an array exceeding its limit —
whatever the other field holds, present or not — the validator's error
list contains exactly one error whose field is the bare array name (the
count error for that many elements), and contains no element-indexed
error for that array (no field starting with `"activities["`, resp.
`"logs["`) — regardless of the elements, which are never validated. -/
theorem c3_oversized_short_circuit :
    (∀ (j : Json) (acts : List Json),
       isObjectLike j = true →
       jGet j "activities" = some (Json.arr acts) →
       acts.length > VALIDATION_LIMITS.MAX_ACTIVITIES →
       ((validateImportDataWithErrors j).errors.filter
           (fun e => e.field == "activities") =
         [⟨"activities", tooManyActivitiesMessage acts.length, none⟩] ∧
        ∀ e ∈ (validateImportDataWithErrors j).errors,
          strStartsWith e.field "activities[" = false)) ∧
    (∀ (j : Json) (logs : List Json),
       isObjectLike j = true →
       jGet j "logs" = some (Json.arr logs) →
       logs.length > VALIDATION_LIMITS.MAX_LOGS →
       ((validateImportDataWithErrors j).errors.filter
           (fun e => e.field == "logs") =
         [⟨"logs", tooManyLogsMessage logs.length, none⟩] ∧
        ∀ e ∈ (validateImportDataWithErrors j).errors,
          strStartsWith e.field "logs[" = false)) := by
  constructor
  · intro j acts hobj ha hbig
    rw [validate_errors_acts_over hobj ha hbig]
    refine acts_count_filter _ _ ?_
    cases hlv : jGet j "logs" with
    | none =>
      intro e he
      have he2 : e ∈ [(⟨"logs", "Missing or invalid \"logs\" array.", none⟩ :
          ValidationError)] := he
      rw [List.mem_singleton] at he2
      rw [he2]
      exact ⟨by decide, by decide⟩
    | some v =>
      cases v with
      | arr logs =>
        dsimp only
        by_cases hL2 : logs.length > VALIDATION_LIMITS.MAX_LOGS
        · rw [if_pos hL2]
          intro e he
          rw [List.mem_singleton] at he
          rw [he]
          constructor
          · show ("logs" == "activities") = false
            decide
          · show strStartsWith "logs" "activities[" = false
            decide
        · rw [if_neg hL2]
          intro e he
          obtain ⟨jj, idx, hmem⟩ := vlf_mem_elim he
          obtain ⟨r, hr⟩ := validateActivityLog_field hmem
          rw [hr]
          constructor
          · simp [field_logs_ne_activities r]
          · exact strStartsWith_logs_not_acts r
      | null =>
        intro e he
        have he2 : e ∈ [(⟨"logs", "Missing or invalid \"logs\" array.", none⟩ :
            ValidationError)] := he
        rw [List.mem_singleton] at he2
        rw [he2]
        exact ⟨by decide, by decide⟩
      | bool b =>
        intro e he
        have he2 : e ∈ [(⟨"logs", "Missing or invalid \"logs\" array.", none⟩ :
            ValidationError)] := he
        rw [List.mem_singleton] at he2
        rw [he2]
        exact ⟨by decide, by decide⟩
      | num n =>
        intro e he
        have he2 : e ∈ [(⟨"logs", "Missing or invalid \"logs\" array.", none⟩ :
            ValidationError)] := he
        rw [List.mem_singleton] at he2
        rw [he2]
        exact ⟨by decide, by decide⟩
      | str s =>
        intro e he
        have he2 : e ∈ [(⟨"logs", "Missing or invalid \"logs\" array.", none⟩ :
            ValidationError)] := he
        rw [List.mem_singleton] at he2
        rw [he2]
        exact ⟨by decide, by decide⟩
      | obj fields =>
        intro e he
        have he2 : e ∈ [(⟨"logs", "Missing or invalid \"logs\" array.", none⟩ :
            ValidationError)] := he
        rw [List.mem_singleton] at he2
        rw [he2]
        exact ⟨by decide, by decide⟩
  · intro j logs hobj hl hbig
    rw [validate_errors_logs_over hobj hl hbig]
    refine logs_count_filter _ _ ?_
    cases hav : jGet j "activities" with
    | none =>
      intro e he
      have he2 : e ∈ [(⟨"activities", "Missing or invalid \"activities\" array.", none⟩ :
          ValidationError)] := he
      rw [List.mem_singleton] at he2
      rw [he2]
      exact ⟨by decide, by decide⟩
    | some v =>
      cases v with
      | arr acts =>
        dsimp only
        by_cases hA2 : acts.length > VALIDATION_LIMITS.MAX_ACTIVITIES
        · rw [if_pos hA2]
          intro e he
          rw [List.mem_singleton] at he
          rw [he]
          constructor
          · show ("activities" == "logs") = false
            decide
          · show strStartsWith "activities" "logs[" = false
            decide
        · rw [if_neg hA2]
          intro e he
          obtain ⟨jj, idx, hmem⟩ := vaf_mem_elim he
          obtain ⟨r, hr⟩ := validateActivity_field hmem
          rw [hr]
          constructor
          · simp [field_acts_ne_logs r]
          · exact strStartsWith_acts_not_logs r
      | null =>
        intro e he
        have he2 : e ∈ [(⟨"activities", "Missing or invalid \"activities\" array.", none⟩ :
            ValidationError)] := he
        rw [List.mem_singleton] at he2
        rw [he2]
        exact ⟨by decide, by decide⟩
      | bool b =>
        intro e he
        have he2 : e ∈ [(⟨"activities", "Missing or invalid \"activities\" array.", none⟩ :
            ValidationError)] := he
        rw [List.mem_singleton] at he2
        rw [he2]
        exact ⟨by decide, by decide⟩
      | num n =>
        intro e he
        have he2 : e ∈ [(⟨"activities", "Missing or invalid \"activities\" array.", none⟩ :
            ValidationError)] := he
        rw [List.mem_singleton] at he2
        rw [he2]
        exact ⟨by decide, by decide⟩
      | str s =>
        intro e he
        have he2 : e ∈ [(⟨"activities", "Missing or invalid \"activities\" array.", none⟩ :
            ValidationError)] := he
        rw [List.mem_singleton] at he2
        rw [he2]
        exact ⟨by decide, by decide⟩
      | obj fields =>
        intro e he
        have he2 : e ∈ [(⟨"activities", "Missing or invalid \"activities\" array.", none⟩ :
            ValidationError)] := he
        rw [List.mem_singleton] at he2
        rw [he2]
        exact ⟨by decide, by decide⟩

/-- Witness for C3 at an object holding 10001 null activities and no
`logs` field at all. -/
theorem c3_witness :
    (validateImportDataWithErrors
        (Json.obj [("activities", Json.arr (List.replicate 10001 Json.null))])).errors.filter
      (fun e => e.field == "activities") =
      [⟨"activities", tooManyActivitiesMessage 10001, none⟩] ∧
    ∀ e ∈ (validateImportDataWithErrors
        (Json.obj [("activities", Json.arr (List.replicate 10001 Json.null))])).errors,
      strStartsWith e.field "activities[" = false := by
  have h := c3_oversized_short_circuit.1
    (Json.obj [("activities", Json.arr (List.replicate 10001 Json.null))])
    (List.replicate 10001 Json.null) rfl rfl
    (by simp only [List.length_replicate]; decide)
  simp only [List.length_replicate] at h
  exact h

/-- C4 counterexample: `"0001-01-01"` matches `^\d\x7b4\x7d-\d\x7b2\x7d-\d\x7b2\x7d$`
and denotes a real calendar date, yet `isValidDateFormat` rejects it:
`new Date(1, 0, 1)` maps two-digit-era years 0–99 to 1900–1999, so the
round-trip year comparison fails.  The claim's "exactly when" is
therefore false as stated. -/
theorem c4_counterexample :
    parseYMD ("0001-01-01" : String).data = some (1, 1, 1) ∧
    isRealCalendarDate 1 1 1 = true ∧
    isValidDateFormat "0001-01-01" = false := by
  decide

/-- C4 (amended): a date string is accepted by `isValidDateFormat`
exactly when it matches the strict `YYYY-MM-DD` shape (`parseYMD`
succeeds), denotes a real calendar date, AND its year is at least 100
(the JS `Date(y, m, d)` constructor remaps years 0–99); strings not of
the shape are always rejected.  In particular `"2024-02-29"` is
accepted while `"2023-02-29"`, `"2024-13-45"` and `"2024/01/15"` are
rejected. -/
theorem c4_date_realism :
    (∀ (s : String) (y m d : Int), parseYMD s.data = some (y, m, d) →
       (isValidDateFormat s = true ↔ (100 ≤ y ∧ isRealCalendarDate y m d = true))) ∧
    (∀ s : String, parseYMD s.data = none → isValidDateFormat s = false) ∧
    isValidDateFormat "2024-02-29" = true ∧
    isValidDateFormat "2023-02-29" = false ∧
    isValidDateFormat "2024-13-45" = false ∧
    isValidDateFormat "2024/01/15" = false := by
  refine ⟨fun s y m d h => isValidDateFormat_iff h,
          fun s h => isValidDateFormat_none h, ?_, ?_, ?_, ?_⟩ <;> decide

/-- Witness for C4 at the leap date `"2024-02-29"`. -/
theorem c4_witness :
    isValidDateFormat "2024-02-29" = true ↔
      (100 ≤ (2024 : Int) ∧ isRealCalendarDate 2024 2 29 = true) :=
  c4_date_realism.1 "2024-02-29" 2024 2 29 (by decide)

/-- C1 counterexample: an export of one activity whose name is clean
and within limits (and no logs at all) still fails the round trip,
because the claim's hypotheses say nothing about the other validated
fields — here an invalid hex color makes the validator reject, so
the import returns the validation result with `sanitizedData = none`
instead of the original data. -/
theorem c1_counterexample :
    sanitizeString badColorActivity.name = badColorActivity.name ∧
    badColorActivity.name.length ≤ VALIDATION_LIMITS.MAX_NAME_LENGTH ∧
    parseImportFileWithValidation
        (some (exportJson [badColorActivity] [] "2024-01-15T10:00:00.000Z")) =
      Except.ok (validateImportDataWithErrors
        (exportJson [badColorActivity] [] "2024-01-15T10:00:00.000Z")) ∧
    (validateImportDataWithErrors
        (exportJson [badColorActivity] [] "2024-01-15T10:00:00.000Z")).valid = false ∧
    (validateImportDataWithErrors
        (exportJson [badColorActivity] [] "2024-01-15T10:00:00.000Z")).sanitizedData =
      none := by
  refine ⟨by decide, by decide, ?_, by decide, validateResult_sanitizedData_none _⟩
  rw [parse_some_eq, if_neg (by decide)]

/-- C1 (amended): the export/import round trip holds for activity and
log lists whose export passes validation, whose activity names are
fixed points of sanitization, and whose present log notes are nonempty
fixed points of sanitization: parsing the exported bundle returns the
original data unchanged.  (The original claim's hypotheses — clean
names/notes only — are insufficient: validation also inspects ids,
colors and dates, see the counterexample.) -/
theorem c1_round_trip (acts : List Activity) (logs : List ActivityLog) (now : String)
    (hvalid : (validateImportDataWithErrors (exportJson acts logs now)).valid = true)
    (hnames : ∀ a ∈ acts, sanitizeString a.name = a.name)
    (hnotes : ∀ l ∈ logs, (match l.notes with
        | none => true
        | some s => !(s == "") && (sanitizeString s == s)) = true) :
    parseImportFileWithValidation (some (exportJson acts logs now)) =
      Except.ok ⟨true, [], some ⟨acts, logs⟩⟩ := by
  obtain ⟨hobj, A, L, hA, hL, _, _, hvA, hvL⟩ := validate_valid_elim hvalid
  have heA : jGet (exportJson acts logs now) "activities" =
      some (Json.arr (acts.map activityToJson)) := rfl
  have heL : jGet (exportJson acts logs now) "logs" =
      some (Json.arr (logs.map logToJson)) := rfl
  rw [heA] at hA
  rw [heL] at hL
  simp only [Option.some.injEq, Json.arr.injEq] at hA hL
  subst hA
  subst hL
  have hfixA : ∀ a ∈ acts, sanitizeActivity a = a := by
    intro a ha
    obtain ⟨idx, hnil⟩ := vaf_nil_mem hvA (activityToJson a)
      (List.mem_map_of_mem _ ha)
    obtain ⟨id, name, color, createdAt, hid, hname, hcolor, hcr,
      hpid, _, hnlen, hhex, _, _⟩ := validateActivity_nil_elim hnil
    have hid2 : id = a.id := by
      have h2 : (some (Json.str a.id) : Option Json) = some (Json.str id) := hid
      simpa using h2.symm
    have hname2 : name = a.name := by
      have h2 : (some (Json.str a.name) : Option Json) = some (Json.str name) := hname
      simpa using h2.symm
    have hcolor2 : color = a.color := by
      have h2 : (some (Json.str a.color) : Option Json) = some (Json.str color) := hcolor
      simpa using h2.symm
    exact sanitizeActivity_fix (hid2 ▸ hpid) (hnames a ha)
      (hname2 ▸ hnlen) (hcolor2 ▸ hhex)
  have hfixL : ∀ l ∈ logs, sanitizeActivityLog l = l := by
    intro l hl
    obtain ⟨idx, hnil⟩ := vlf_nil_mem hvL (logToJson l)
      (List.mem_map_of_mem _ hl)
    obtain ⟨id, aid, date, createdAt, c, hid, haid, hdate, hcomp, hcr,
      hpid, hpaid, hvdate, hnote⟩ := validateActivityLog_nil_elim hnil
    have hid2 : id = l.id := by
      have h2 : (some (Json.str l.id) : Option Json) = some (Json.str id) := hid
      simpa using h2.symm
    have haid2 : aid = l.activityId := by
      have h2 : (some (Json.str l.activityId) : Option Json) = some (Json.str aid) := haid
      simpa using h2.symm
    have hdate2 : date = l.date := by
      have h2 : (some (Json.str l.date) : Option Json) = some (Json.str date) := hdate
      simpa using h2.symm
    have hb := hnotes l hl
    apply sanitizeActivityLog_fix (hid2 ▸ hpid) (haid2 ▸ hpaid) (hdate2 ▸ hvdate)
    cases l with
    | mk lid laid ldate lcomp lnotes lcr =>
      cases lnotes with
      | none => exact trivial
      | some s =>
        have hb2 : (!(s == "") && (sanitizeString s == s)) = true := hb
        simp only [Bool.and_eq_true, Bool.not_eq_true', beq_eq_false_iff_ne,
          beq_iff_eq] at hb2
        have hnote2 : (some (Json.str s) : Option Json) = none ∨
            (some (Json.str s) : Option Json) = some Json.null ∨
            ∃ s2, (some (Json.str s) : Option Json) = some (Json.str s2) ∧
              s2.length ≤ VALIDATION_LIMITS.MAX_NOTES_LENGTH := hnote
        rcases hnote2 with h | h | ⟨s2, hs2, hlen⟩
        · simp at h
        · simp at h
        · have hs3 : s2 = s := by simpa using hs2.symm
          exact ⟨hb2.1, hb2.2, hs3 ▸ hlen⟩
  have hra : readAll readActivity (acts.map activityToJson) = some acts :=
    readAll_map (fun x _ => readActivity_toJson x)
  have hrl : readAll readActivityLog (logs.map logToJson) = some logs :=
    readAll_map (fun x _ => readActivityLog_toJson x)
  rw [parse_some_eq, if_pos hvalid]
  show (match readAll readActivity (acts.map activityToJson),
            readAll readActivityLog (logs.map logToJson) with
        | some as2, some ls2 =>
          Except.ok (⟨true, [],
            some ⟨as2.map sanitizeActivity, ls2.map sanitizeActivityLog⟩⟩ :
              ValidationResult)
        | _, _ => Except.error JsErr.typeError) =
      Except.ok ⟨true, [], some ⟨acts, logs⟩⟩
  rw [hra, hrl]
  simp only []
  rw [map_id_of hfixA, map_id_of hfixL]

/-- Witness for C1 at one clean activity and one clean log. -/
theorem c1_witness :
    parseImportFileWithValidation
        (some (exportJson [sampleActivity] [sampleLog] "2024-06-01T00:00:00.000Z")) =
      Except.ok ⟨true, [], some ⟨[sampleActivity], [sampleLog]⟩⟩ := by
  apply c1_round_trip [sampleActivity] [sampleLog] "2024-06-01T00:00:00.000Z"
  · decide
  · intro a ha
    rw [List.mem_singleton] at ha
    subst ha
    decide
  · intro l hl
    rw [List.mem_singleton] at hl
    subst hl
    decide
